import Mathlib

/-!
Shallow embedding of the analytics engine of `pererecos-stats`
(`src/backend/app/services/stats_service.py`), together with theorems that
settle the specification claims about it.

Modelling conventions:
* The MongoDB `messages` collection is a `List Msg` in store (insertion) order.
* Timestamps are `Int` seconds; `timedelta(days=1)` is `86400`, `weeks=1` is
  `7*86400`, `days=30` is `30*86400`, `seconds=10` is `10`.
* A Mongo `$group` keyed by a field is modelled extensionally: group keys are
  enumerated in first-seen store order (`uniqueKeys`) and each group's
  accumulators (`$sum`, `$last`, `$min`, `$max`, `$avg`, `$push`) are computed
  from the filtered sub-list for that key.  A Python dict lookup
  `d.get(k, 0)` on a grouped result is the count of matching events for `k`.
* Mongo `$sort` and Python `sorted(..., reverse=True)` / `list.sort` are
  modelled by the stable `List.insertionSort` with the corresponding
  "may come before" relation; ties keep first-seen order, which is the
  stable-store-iteration-order reading the spec itself adopts.
* Python float arithmetic is idealised as exact rational (`ℚ`) arithmetic;
  `round(x, 1)` is `roundTo1` (round half to even, as Python's `round`).
  The cosine-similarity score, the only irrational quantity, is handled by
  comparing squares of cross products in `ℚ` (an exact, order-preserving
  reformulation, proved as such against the real-valued score `cosineScore`).
-/

/-- A persisted chat message event, as inserted by the Twitch bot
(`twitch_bot.py`): usernames are lowercased at ingestion and `hour` is the
message's hour of day in UTC-3, hence `0 ≤ hour < 24`. -/
structure Msg where
  username : String
  display_name : String
  message : String
  timestamp : Int
  hour : Nat
deriving DecidableEq, Repr

/-- Python `str.lower()` (`username.lower()` in the service code): lowercase
every character. -/
def pyLower (s : String) : String := String.mk (s.data.map Char.toLower)

/-- `MAX_USERS_QUERY` from `stats_service.py`. -/
def MAX_USERS_QUERY : Nat := 1000

/-- `MAX_MESSAGES_QUERY` from `stats_service.py`. -/
def MAX_MESSAGES_QUERY : Nat := 10000

/-- First occurrences of elements of a list, skipping those already `seen`. -/
def firstOccs {α : Type} [DecidableEq α] (seen : List α) : List α → List α
  | [] => []
  | x :: xs => if x ∈ seen then firstOccs seen xs else x :: firstOccs (x :: seen) xs

/-- The distinct elements of `l` in first-occurrence order: the order in which
a Mongo `$group` keyed by that value emits its groups in this model, and the
insertion order of the corresponding Python dicts. -/
def uniqueKeys {α : Type} [DecidableEq α] (l : List α) : List α := firstOccs [] l

/-- Number of messages of user `u` in `msgs` (a `$group`/`$sum: 1` count). -/
def userCount (msgs : List Msg) (u : String) : Nat :=
  (msgs.filter (fun m => m.username = u)).length

/-- The `$last: "$display_name"` accumulator over the messages of `u`,
with a default for the (unreachable) empty-group case. -/
def lastDisplayName (msgs : List Msg) (u : String) (dflt : String) : String :=
  (((msgs.filter (fun m => m.username = u)).map (·.display_name)).getLast?).getD dflt

/-- Python round-half-to-even (`round`) of a rational. -/
def bankersRound (q : ℚ) : ℤ :=
  if q - ⌊q⌋ < 1/2 then ⌊q⌋
  else if 1/2 < q - ⌊q⌋ then ⌊q⌋ + 1
  else if ⌊q⌋ % 2 = 0 then ⌊q⌋ else ⌊q⌋ + 1

/-- Python `round(x, 1)`. -/
def roundTo1 (q : ℚ) : ℚ := ((bankersRound (q * 10) : ℤ) : ℚ) / 10

/-! ### 7TV emote cache (`get_7tv_emotes`, `count_emotes_in_messages`) -/

/-- The process-wide cache state: the module globals `_7tv_emotes_cache`
(`None` means never populated) and `_7tv_cache_time`. -/
structure EmoteCache where
  cache : Option (List (String × String))
  time : Option Int
deriving DecidableEq, Repr

/-- Outcome of the external 7TV catalog fetch.  `ok` is a fully successful
fetch; `fail` is a fetch that raised (timeout or other error) after having
populated `emotes` with the given entries — in particular `fail []` is a
network error before anything was fetched.  The entries are the successive
`emotes[name] = id` assignments in order. -/
inductive FetchResult where
  | ok (entries : List (String × String))
  | fail (entries : List (String × String))
deriving DecidableEq, Repr

/-- The contents of the local `emotes` dict after the `try` block: on an
exception the partially populated dict survives. -/
def FetchResult.entries : FetchResult → List (String × String)
  | .ok es => es
  | .fail es => es

/-- Python dict lookup on a list of assignments (later assignments win). -/
def dictGet (d : List (String × String)) (k : String) : Option String :=
  (d.reverse.find? (fun p => p.1 = k)).map (·.2)

/-- Python dict key-membership test (`word in emotes`). -/
def dictHas (d : List (String × String)) (k : String) : Bool :=
  d.any (fun p => p.1 = k)

/-- `get_7tv_emotes`: return the cached mapping when both globals are set and
the cache is younger than 3600 s; otherwise run the fetch and unconditionally
store its (possibly partial, possibly empty) result and the current time.
Returns the mapping handed to the caller and the new global state. -/
def get_7tv_emotes (c : EmoteCache) (now : Int) (fr : FetchResult) :
    List (String × String) × EmoteCache :=
  match c.cache, c.time with
  | some m, some t =>
    if now - t < 3600 then (m, c)
    else (fr.entries, ⟨some fr.entries, some now⟩)
  | _, _ => (fr.entries, ⟨some fr.entries, some now⟩)

/-- `EmoteUsage` response model. -/
structure EmoteUsage where
  emote_name : String
  emote_id : String
  count : Nat
deriving DecidableEq, Repr

/-- Python `str.split()`: split on whitespace runs, dropping empty tokens. -/
def pyWords (s : String) : List String :=
  (s.split (fun ch => ch.isWhitespace)).filter (fun w => w ≠ "")

/-- `counts[word] = counts.get(word, 0) + 1` on an insertion-ordered dict. -/
def bumpCount (counts : List (String × Nat)) (w : String) : List (String × Nat) :=
  if counts.any (fun p => p.1 = w) then
    counts.map (fun p => if p.1 = w then (p.1, p.2 + 1) else p)
  else counts ++ [(w, 1)]

/-- The `counts` dict of `count_emotes_in_messages` after the two loops. -/
def emoteCounts (emotes : List (String × String)) (texts : List String) :
    List (String × Nat) :=
  texts.foldl (fun counts text =>
    (pyWords text).foldl
      (fun cs w => if dictHas emotes w then bumpCount cs w else cs) counts) []

/-- `count_emotes_in_messages`: fetch the emote mapping (through the cache),
count exact-match whitespace tokens, sort by count descending (stable) and
keep the top `limit`.  The `emote_id` lookup cannot miss in the code; the
model uses a `""` default. -/
def count_emotes_in_messages (c : EmoteCache) (now : Int) (fr : FetchResult)
    (messages : List String) (limit : Nat) : List EmoteUsage :=
  let emotes := (get_7tv_emotes c now fr).1
  if emotes = [] then []
  else
    let sorted_emotes := (List.insertionSort (fun (a b : String × Nat) => b.2 ≤ a.2)
      (emoteCounts emotes messages)).take limit
    sorted_emotes.map (fun p => ⟨p.1, (dictGet emotes p.1).getD "", p.2⟩)

/-! ### Period resolution (`get_date_filter`) and the router pattern -/

/-- `get_date_filter`: the optional `$gte` lower bound on `timestamp`.
`day`/`week`/`month` map to `now` minus 1/7/30 days; every other tag
(including `all`) falls into the `else` branch and yields the empty filter. -/
def get_date_filter (period : String) (now : Int) : Option Int :=
  if period = "day" then some (now - 86400)
  else if period = "week" then some (now - 7 * 86400)
  else if period = "month" then some (now - 30 * 86400)
  else none

/-- Apply an optional `$gte` timestamp bound to the collection. -/
def applyDateFilter (msgs : List Msg) (f : Option Int) : List Msg :=
  match f with
  | none => msgs
  | some start => msgs.filter (fun m => start ≤ m.timestamp)

/-- The FastAPI query validation of `period` in `routers/stats.py`:
the regex `^(day|week|month|all)$`. -/
def periodPattern (s : String) : Bool :=
  s = "day" || s = "week" || s = "month" || s = "all"

/-! ### Rank table (`get_user_percentile`, rank pipelines) -/

/-- The `$group`-by-username / `$sum: 1` stage: one `(username, count)` pair
per distinct user, in first-seen store order. -/
def groupCounts (msgs : List Msg) : List (String × Nat) :=
  (uniqueKeys (msgs.map (·.username))).map (fun u => (u, userCount msgs u))

/-- Group by username, sort by count descending, `$limit: MAX_USERS_QUERY`:
the capped rank table used by percentile, rank and rival pipelines. -/
def rankPipeline (msgs : List Msg) : List (String × Nat) :=
  (List.insertionSort (fun (a b : String × Nat) => b.2 ≤ a.2) (groupCounts msgs)).take
    MAX_USERS_QUERY

/-- 1-based position of the first element whose key is `u`
(the `for i, user in enumerate(...): if ...: rank = i + 1; break` loop). -/
def rankOfKey {α : Type} (key : α → String) : List α → String → Option Nat
  | [], _ => none
  | x :: rest, u => if key x = u then some 1 else (rankOfKey key rest u).map (· + 1)

/-- 1-based rank of username `u` in a `(username, count)` table. -/
def rankOf (table : List (String × Nat)) (u : String) : Option Nat :=
  rankOfKey Prod.fst table u

/-- `get_user_percentile`: percentage of ranked users (within the capped
table) with strictly fewer messages than the subject. -/
def get_user_percentile (msgs : List Msg) (username : String) (period : String)
    (now : Int) : ℚ :=
  let all_users := rankPipeline (applyDateFilter msgs (get_date_filter period now))
  if all_users = [] then 0
  else
    let user_count := ((all_users.find? (fun p => p.1 = pyLower username)).map (·.2)).getD 0
    if user_count = 0 then 0
    else
      let below_count := (all_users.filter (fun p => p.2 < user_count)).length
      let total_users := all_users.length
      if 0 < total_users then (below_count : ℚ) / (total_users : ℚ) * 100 else 0

/-! ### Peak hours (`get_peak_hours`) -/

/-- `HourlyActivity` response model. -/
structure HourlyActivity where
  hour : Nat
  count : Nat
deriving DecidableEq, Repr

/-- Sum of the 3-hour circular window starting at `start`
(`sum(counts[(start + i) % 24] for i in range(3))`); the indices are in
range for the 24-length lists the code builds, so the `getD` default is
never used there. -/
def windowSum (counts : List Nat) (start : Nat) : Nat :=
  ((List.range 3).map (fun i => counts.getD ((start + i) % 24) 0)).sum

/-- The `best_sum`/`best_start` accumulator loop over start hours. -/
def peakFold (counts : List Nat) (l : List Nat) (acc : Nat × Nat) : Nat × Nat :=
  l.foldl (fun best start =>
    if windowSum counts start > best.1 then (windowSum counts start, start) else best) acc

/-- `get_peak_hours`: the best 3-consecutive-hour circular window, first-found
in ascending start order; empty when the best sum is 0. -/
def get_peak_hours (hourly_activity : List HourlyActivity) : List Nat :=
  if hourly_activity = [] then []
  else
    let counts := hourly_activity.map (·.count)
    let best := peakFold counts (List.range 24) (0, 0)
    if best.1 = 0 then []
    else (List.range 3).map (fun i => (best.2 + i) % 24)

/-! ### Rival finder (`get_rival`) -/

/-- The candidate a rival search returns: the model keeps the candidate's
24-hour activity vector in place of the float `similarity_score` field of
`RivalInfo` (the score is the derived, generally irrational, quantity
`cosineScore`; the selection itself is decided exactly, see `rivalStep`). -/
structure RivalCand where
  username : String
  display_name : String
  vector : List Nat
deriving DecidableEq, Repr

/-- The 24-vector of hour counts of user `u`: the grouped-and-pushed
`hours` array turned into `[other_hours.get(i, 0) for i in range(24)]`. -/
def userHourVector (msgs : List Msg) (u : String) : List Nat :=
  (List.range 24).map (fun h => (msgs.filter (fun m => m.username = u ∧ m.hour = h)).length)

/-- The candidate pool of `get_rival`: every user with their hour vector,
sorted by total message count descending (stable), capped at
`MAX_USERS_QUERY`.  The `$last`-chained display name is modelled as the
user's most recent display name. -/
def rivalPool (msgs : List Msg) : List RivalCand :=
  let entries := (uniqueKeys (msgs.map (·.username))).map (fun u =>
    (RivalCand.mk u (lastDisplayName msgs u u) (userHourVector msgs u), userCount msgs u))
  ((List.insertionSort (fun (a b : RivalCand × Nat) => b.2 ≤ a.2) entries).take
    MAX_USERS_QUERY).map (·.1)

/-- `sum(a * b for a, b in zip(u, v))`. -/
def dotN (a b : List Nat) : Nat := (List.zipWith (· * ·) a b).sum

/-- `sum(x * x for x in v)`: the squared Euclidean magnitude; the code's
`magnitude == 0` test is exactly `sumSq v = 0`. -/
def sumSq (a : List Nat) : Nat := (a.map (fun x => x * x)).sum

/-- The best-rival accumulator: the running best candidate together with its
dot product against the subject and its squared magnitude. -/
structure RivalAcc where
  cand : RivalCand
  dp : Nat
  q : Nat
deriving DecidableEq, Repr

/-- One iteration of the `get_rival` loop.  The float comparison
`similarity > best_similarity` is modelled exactly: similarities are
`d / (√qu · √q) · 100` with a common positive factor `100 / √qu`, all dot
products are nonnegative and all magnitudes positive, so
`sim_new > sim_old ↔ d_new² · q_old > d_old² · q_new` (lemma
`cross_lt_iff_score_lt`); against the initial `best_similarity = -1` any
eligible candidate wins since its similarity is `≥ 0`. -/
def rivalStep (user_vector : List Nat) (lowered : String)
    (best : Option RivalAcc) (c : RivalCand) : Option RivalAcc :=
  if c.username = lowered then best
  else
    let qc := sumSq c.vector
    if qc = 0 then best
    else
      let d := dotN user_vector c.vector
      match best with
      | none => some ⟨c, d, qc⟩
      | some b => if b.dp * b.dp * qc < d * d * b.q then some ⟨c, d, qc⟩ else best

/-- `get_rival`: pick the pool candidate with the highest cosine similarity
to the subject's hourly pattern. -/
def get_rival (msgs : List Msg) (username : String)
    (hourly_pattern : List HourlyActivity) (period : String) (now : Int) :
    Option RivalCand :=
  let pool := rivalPool (applyDateFilter msgs (get_date_filter period now))
  if pool = [] then none
  else
    let user_vector := hourly_pattern.map (·.count)
    if sumSq user_vector = 0 then none
    else (pool.foldl (rivalStep user_vector (pyLower username)) none).map (·.cand)

/-- The real-valued similarity score
`dot(u, v) / (||u|| * ||v||) * 100` the code computes in floats. -/
noncomputable def cosineScore (u v : List Nat) : ℝ :=
  ((dotN u v : ℝ) / (Real.sqrt (sumSq u) * Real.sqrt (sumSq v))) * 100

/-! ### Reply correlator (`get_top_replies`) -/

/-- `ReplyTarget` response model. -/
structure ReplyTarget where
  username : String
  display_name : String
  reply_count : Nat
deriving DecidableEq, Repr

/-- The per-message window query: other users' messages with timestamp in
`[t - 10 s, t)`, in store order (the code's `find` has no sort). -/
def windowMsgs (msgs : List Msg) (lowered : String) (t : Int) : List Msg :=
  msgs.filter (fun m => m.username ≠ lowered ∧ t - 10 ≤ m.timestamp ∧ m.timestamp < t)

/-- Credit one reply to the author of `m` in the `reply_counts` dict
(first encounter also fixes the stored display name). -/
def bumpReply (counts : List (String × String × Nat)) (m : Msg) :
    List (String × String × Nat) :=
  if counts.any (fun p => p.1 = m.username) then
    counts.map (fun p => if p.1 = m.username then (p.1, p.2.1, p.2.2 + 1) else p)
  else counts ++ [(m.username, m.display_name, 1)]

/-- The `reply_counts` dict after the outer loop: for each subject message,
only the first 50 window messages are fetched (`limit(50)`). -/
def replyCounts (msgs : List Msg) (lowered : String) (subject : List Msg) :
    List (String × String × Nat) :=
  subject.foldl (fun counts msg =>
    ((windowMsgs msgs lowered msg.timestamp).take 50).foldl bumpReply counts) []

/-- The subject's messages examined by `get_top_replies`: period-filtered,
sorted newest first, capped at `MAX_MESSAGES_QUERY`. -/
def replySubject (msgs : List Msg) (lowered : String) (period : String) (now : Int) :
    List Msg :=
  (List.insertionSort (fun (a b : Msg) => b.timestamp ≤ a.timestamp)
    ((applyDateFilter msgs (get_date_filter period now)).filter
      (fun m => m.username = lowered))).take MAX_MESSAGES_QUERY

/-- `get_top_replies`: tally reply credits over the subject's (period-filtered,
most recent `MAX_MESSAGES_QUERY`) messages and return the top `limit` actors
by credit, descending, ties first-encountered. -/
def get_top_replies (msgs : List Msg) (username : String) (period : String)
    (now : Int) (limit : Nat) : List ReplyTarget :=
  let lowered := pyLower username
  let user_messages := replySubject msgs lowered period now
  if user_messages = [] then []
  else
    let sorted_replies := (List.insertionSort
      (fun (a b : String × String × Nat) => b.2.2 ≤ a.2.2)
      (replyCounts msgs lowered user_messages)).take limit
    sorted_replies.map (fun p => ⟨p.1, p.2.1, p.2.2⟩)

/-! ### Growth engine (`get_rising_stars`) -/

/-- `RisingStarEntry` response model (`growth_percent` rounded to 1 decimal). -/
structure RisingStarEntry where
  rank : Nat
  username : String
  display_name : String
  current_count : Nat
  previous_count : Nat
  growth_percent : ℚ
deriving DecidableEq, Repr

/-- One element of the internal `growth_data` list (pre-rounding). -/
structure GrowthRec where
  username : String
  display_name : String
  current_count : Nat
  previous_count : Nat
  growth_percent : ℚ
deriving DecidableEq, Repr

/-- The current 7-day window `timestamp >= now - 7d`. -/
def currentWindow (msgs : List Msg) (now : Int) : List Msg :=
  msgs.filter (fun m => now - 7 * 86400 ≤ m.timestamp)

/-- The previous 7-day window `now - 14d <= timestamp < now - 7d`. -/
def prevWindow (msgs : List Msg) (now : Int) : List Msg :=
  msgs.filter (fun m => now - 14 * 86400 ≤ m.timestamp ∧ m.timestamp < now - 7 * 86400)

/-- The growth formula of `get_rising_stars`: `current * 10` when there was
no previous activity, else the relative change in percent. -/
def growthPercent (current previous : Nat) : ℚ :=
  if previous = 0 then (current : ℚ) * 10
  else (((current : ℚ) - (previous : ℚ)) / (previous : ℚ)) * 100

/-- The `growth_data` list: one record per user of the current window
(dict insertion order = first-seen order), with the previous-window count
defaulting to 0. -/
def risingGrowthData (msgs : List Msg) (now : Int) : List GrowthRec :=
  let cur := currentWindow msgs now
  let prev := prevWindow msgs now
  (uniqueKeys (cur.map (·.username))).map (fun u =>
    let current_count := userCount cur u
    let previous_count := userCount prev u
    ⟨u, lastDisplayName cur u u, current_count, previous_count,
      growthPercent current_count previous_count⟩)

/-- `get_rising_stars`: sort `growth_data` by growth percent descending
(stable), truncate, and build 1-based-ranked entries with the rounded
percentage. -/
def get_rising_stars (msgs : List Msg) (now : Int) (limit : Nat) :
    List RisingStarEntry :=
  let top_growth := (List.insertionSort
    (fun (a b : GrowthRec) => b.growth_percent ≤ a.growth_percent)
    (risingGrowthData msgs now)).take limit
  top_growth.enum.map (fun p =>
    ⟨p.1 + 1, p.2.username, p.2.display_name, p.2.current_count,
      p.2.previous_count, roundTo1 p.2.growth_percent⟩)

/-! ### Writers and hour leaders (used by `get_user_rankings`) -/

/-- A row of the writers pipeline inside `get_user_rankings`
(no display name there). -/
structure WriterRec where
  username : String
  avg_length : ℚ
  count : Nat
deriving DecidableEq, Repr

/-- The writers pipeline: average message length (`$avg`/`$strLenCP`) per
user, keep users with at least 10 messages, sort by average descending,
cap at `MAX_USERS_QUERY`. -/
def writersTable (msgs : List Msg) : List WriterRec :=
  let recs := (uniqueKeys (msgs.map (·.username))).map (fun u =>
    let c := userCount msgs u
    WriterRec.mk u
      ((((msgs.filter (fun m => m.username = u)).map
        (fun m => (m.message.length : ℚ))).sum) / (c : ℚ)) c)
  (List.insertionSort (fun (a b : WriterRec) => b.avg_length ≤ a.avg_length)
    (recs.filter (fun r => 10 ≤ r.count))).take MAX_USERS_QUERY

/-- `HourLeaderEntry` response model. -/
structure HourLeaderEntry where
  hour : Nat
  username : String
  display_name : String
  message_count : Nat
deriving DecidableEq, Repr

/-- The `(hour, username)` groups with `$last` display name and count,
in first-seen store order. -/
def hourUserGroups (msgs : List Msg) : List (Nat × String × String × Nat) :=
  (uniqueKeys (msgs.map (fun m => (m.hour, m.username)))).map (fun hu =>
    let grp := msgs.filter (fun m => m.hour = hu.1 ∧ m.username = hu.2)
    (hu.1, hu.2, ((grp.map (·.display_name)).getLast?).getD hu.2, grp.length))

/-- `get_hour_leaders`: sort the `(hour, user)` groups by count descending,
take the `$first` (= best) row per hour, emit hours ascending; the cursor is
read with `to_list(24)`. -/
def get_hour_leaders (msgs : List Msg) : List HourLeaderEntry :=
  let sorted := List.insertionSort
    (fun (a b : Nat × String × String × Nat) => b.2.2.2 ≤ a.2.2.2) (hourUserGroups msgs)
  let hours := (List.insertionSort (fun (a b : Nat) => a ≤ b)
    (uniqueKeys (sorted.map (·.1)))).take 24
  hours.filterMap (fun h =>
    (sorted.find? (fun e => e.1 = h)).map (fun e => ⟨h, e.2.1, e.2.2.1, e.2.2.2⟩))

/-! ### Rankings (`get_user_rankings`) -/

/-- `UserRankings` response model. -/
structure UserRankings where
  top_rank : Option Nat
  top_rank_change : Option Int
  rising_rank : Option Nat
  writers_rank : Option Nat
  hours_dominated : List Nat
deriving DecidableEq, Repr

/-- The rank table of the previous 7-day window (`now-14d ≤ t < now-7d`). -/
def prevWeekTable (msgs : List Msg) (now : Int) : List (String × Nat) :=
  rankPipeline (prevWindow msgs now)

/-- `get_user_rankings`: the user's positions in the various leaderboards.
`top_rank` is the rank in the requested period's capped table;
`top_rank_change` is `prev_rank - top_rank` (prior 7-day window vs the
requested period's table), and `None` when either rank is missing. -/
def get_user_rankings (msgs : List Msg) (username : String) (period : String)
    (now : Int) : UserRankings :=
  let lowered := pyLower username
  let all_users := rankPipeline (applyDateFilter msgs (get_date_filter period now))
  let top_rank := rankOf all_users lowered
  let top_rank_change : Option Int :=
    match top_rank with
    | none => none
    | some r =>
      match rankOf (prevWeekTable msgs now) lowered with
      | none => none
      | some p => some ((p : Int) - (r : Int))
  let rising_rank := ((get_rising_stars msgs now 100).find?
    (fun e => e.username = lowered)).map (·.rank)
  let writers_rank := rankOfKey WriterRec.username (writersTable msgs) lowered
  let hours_dominated := ((get_hour_leaders msgs).filter
    (fun e => e.username = lowered)).map (·.hour)
  ⟨top_rank, top_rank_change, rising_rank, writers_rank, hours_dominated⟩

/-! ### Overall hourly activity (`get_overall_hourly_activity`) -/

/-- `ChatActivityPoint` response model. -/
structure ChatActivityPoint where
  hour : Nat
  count : Nat
deriving DecidableEq, Repr

/-- `get_overall_hourly_activity`: all-time 24-bin histogram, its sum, and
the peak hour/count (first maximum). -/
def get_overall_hourly_activity (msgs : List Msg) :
    List ChatActivityPoint × Nat × Nat × Nat :=
  let activity := (List.range 24).map (fun h =>
    ChatActivityPoint.mk h ((msgs.filter (fun m => m.hour = h)).length))
  let total_messages := (activity.map (·.count)).sum
  let peak := activity.foldl (fun acc a =>
    if a.count > acc.2 then (a.hour, a.count) else acc) (0, 0)
  (activity, total_messages, peak.1, peak.2)

/-! ### Composite user stats (`get_user_stats`) -/

/-- `RecentMessage` response model. -/
structure RecentMessage where
  message : String
  timestamp : Int
deriving DecidableEq, Repr

/-- `FavoriteHour` response model. -/
structure FavoriteHour where
  hour : Nat
  count : Nat
  percentage : ℚ
deriving DecidableEq, Repr

/-- `UserStats` response model (rival modelled by `RivalCand`). -/
structure UserStats where
  username : String
  display_name : String
  period : String
  total_messages : Nat
  hourly_activity : List HourlyActivity
  recent_messages : List RecentMessage
  first_message_date : Option Int
  last_message_date : Option Int
  percentile : ℚ
  peak_hours : List Nat
  favorite_hour : Option FavoriteHour
  rival : Option RivalCand
  top_replies : List ReplyTarget
  rankings : UserRankings
  top_emotes : List EmoteUsage
deriving DecidableEq, Repr

/-- `get_user_top_emotes`: the user's last-30-days messages (store order,
first `MAX_MESSAGES_QUERY`), counted against the emote catalog. -/
def get_user_top_emotes (msgs : List Msg) (username : String) (now : Int)
    (c : EmoteCache) (fr : FetchResult) (limit : Nat) : List EmoteUsage :=
  let ms := (msgs.filter (fun m =>
    m.username = pyLower username ∧ now - 30 * 86400 ≤ m.timestamp)).take MAX_MESSAGES_QUERY
  count_emotes_in_messages c now fr (ms.map (·.message)) limit

/-- `get_user_stats`: the composite per-user result.  Returns `none` when the
user has no messages in the requested period.  The emote-cache state and the
external fetch outcome are explicit parameters (the code reads process-wide
globals and performs the HTTP fetch inside `get_7tv_emotes`). -/
def get_user_stats (msgs : List Msg) (username : String) (period : String)
    (now : Int) (c : EmoteCache) (fr : FetchResult) : Option UserStats :=
  let lowered := pyLower username
  let filtered := applyDateFilter (msgs.filter (fun m => m.username = lowered))
    (get_date_filter period now)
  let total := filtered.length
  if total = 0 then none
  else
    let hourly_activity := (List.range 24).map (fun h =>
      HourlyActivity.mk h ((filtered.filter (fun m => m.hour = h)).length))
    let recent_messages := ((List.insertionSort
      (fun (a b : Msg) => b.timestamp ≤ a.timestamp)
      (msgs.filter (fun m => m.username = lowered))).take 10).map
      (fun m => RecentMessage.mk m.message m.timestamp)
    let favorite_hour :=
      match hourly_activity with
      | [] => none
      | x :: xs =>
        let max_hour := xs.foldl (fun best h => if h.count > best.count then h else best) x
        if 0 < max_hour.count then
          some (FavoriteHour.mk max_hour.hour max_hour.count
            (roundTo1 ((max_hour.count : ℚ) / (total : ℚ) * 100)))
        else none
    some
      { username := lowered
        display_name := ((filtered.map (·.display_name)).getLast?).getD username
        period := period
        total_messages := total
        hourly_activity := hourly_activity
        recent_messages := recent_messages
        first_message_date := (filtered.map (·.timestamp)).min?
        last_message_date := (filtered.map (·.timestamp)).max?
        percentile := roundTo1 (get_user_percentile msgs username period now)
        peak_hours := get_peak_hours hourly_activity
        favorite_hour := favorite_hour
        rival := get_rival msgs username hourly_activity period now
        top_replies := get_top_replies msgs username period now 5
        rankings := get_user_rankings msgs username period now
        top_emotes := get_user_top_emotes msgs username now c fr 10 }

/-! ## Claim C1: emote-cache behaviour on refresh failure -/

/-- C1 counterexample: with a populated, expired cache `{Kappa ↦ 1}` and a
refresh that fails before fetching anything, the cache is overwritten with
the empty mapping — the lookup of `Kappa`, which succeeded against the old
cache, now fails.  The claim that a failed refresh "retains the previous
cache value rather than clearing it" is therefore false of the code. -/
theorem C1_counterexample :
    dictGet (get_7tv_emotes ⟨some [("Kappa", "1")], some 0⟩ 3600 (FetchResult.fail [])).1
        "Kappa" = none ∧
    (get_7tv_emotes ⟨some [("Kappa", "1")], some 0⟩ 3600 (FetchResult.fail [])).2.cache =
        some [] ∧
    dictGet [("Kappa", "1")] "Kappa" = some "1" := by
  decide

/-- C1 (amended): while a populated cache is younger than 3600 s no refresh
happens and every lookup is served from it unchanged; once it is stale, a
refresh — failed or not — unconditionally replaces the cache with exactly
the entries gathered before any error (possibly none) and stamps the current
time, discarding the previous mapping. -/
theorem C1_cache_overwrite (m : List (String × String)) (t now : Int) (fr : FetchResult) :
    (now - t < 3600 →
      get_7tv_emotes ⟨some m, some t⟩ now fr = (m, ⟨some m, some t⟩)) ∧
    (3600 ≤ now - t →
      get_7tv_emotes ⟨some m, some t⟩ now fr = (fr.entries, ⟨some fr.entries, some now⟩)) := by
  constructor <;> intro h
  · simp [get_7tv_emotes, h]
  · simp [get_7tv_emotes, if_neg (by omega : ¬ now - t < 3600)]

/-- C1 witness: the stale-cache branch of `C1_cache_overwrite` at a concrete
input: the failed refresh's partial result replaces the old mapping. -/
theorem C1_cache_overwrite_witness :
    (3600 : Int) ≤ 7200 - 0 ∧
    get_7tv_emotes ⟨some [("Kappa", "1")], some 0⟩ 7200 (FetchResult.fail [("X", "9")]) =
      ([("X", "9")], ⟨some [("X", "9")], some 7200⟩) :=
  ⟨by decide,
    (C1_cache_overwrite [("Kappa", "1")] 0 7200 (FetchResult.fail [("X", "9")])).2 (by decide)⟩

/-! ## Claim C2: period-tag resolution -/

/-- C2 counterexample: the core's `get_date_filter` does not fail fast on an
unrecognized tag: `"bogus"` falls into the `else` branch and yields the empty
filter, exactly like `"all"`, and downstream filtering proceeds over the
whole store (here a message far in the past is kept). -/
theorem C2_counterexample :
    get_date_filter "bogus" 1000 = none ∧
    get_date_filter "bogus" 1000 = get_date_filter "all" 1000 ∧
    applyDateFilter [⟨"a", "A", "x", -999999, 0⟩] (get_date_filter "bogus" 1000) =
      [⟨"a", "A", "x", -999999, 0⟩] := by
  decide

/-- C2 (amended): the core maps `day`/`week`/`month` to the lower bounds
`now-1d`/`now-7d`/`now-30d` and *every* other tag — `all` and unknown tags
alike — to the unbounded window; it never errors.  Unknown tags are instead
rejected before the service layer by the HTTP route's query pattern
`^(day|week|month|all)$`, which accepts exactly the four canonical tags. -/
theorem C2_amended (period : String) (now : Int) :
    (get_date_filter "day" now = some (now - 86400) ∧
     get_date_filter "week" now = some (now - 7 * 86400) ∧
     get_date_filter "month" now = some (now - 30 * 86400) ∧
     get_date_filter "all" now = none) ∧
    (period ≠ "day" → period ≠ "week" → period ≠ "month" →
      get_date_filter period now = none) ∧
    (periodPattern period = true ↔
      period = "day" ∨ period = "week" ∨ period = "month" ∨ period = "all") := by
  refine ⟨⟨?_, ?_, ?_, ?_⟩, ?_, ?_⟩
  · simp [get_date_filter]
  · simp [get_date_filter]
  · simp [get_date_filter]
  · simp [get_date_filter]
  · intro h1 h2 h3
    simp [get_date_filter, h1, h2, h3]
  · simp only [periodPattern, Bool.or_eq_true, decide_eq_true_eq]
    tauto

/-- C2 witness: `C2_amended` applied to the concrete unknown tag `"bogus"`. -/
theorem C2_amended_witness :
    ("bogus" ≠ "day" ∧ "bogus" ≠ "week" ∧ "bogus" ≠ "month") ∧
    get_date_filter "bogus" 5 = none ∧
    periodPattern "bogus" = false :=
  ⟨by decide,
    (C2_amended "bogus" 5).2.1 (by decide) (by decide) (by decide),
    by decide⟩

/-! ## Generic facts about the grouping and ranking pipelines -/

/-- Membership in `firstOccs`: an element is kept iff it occurs in the list
and was not already seen. -/
theorem mem_firstOccs {α : Type} [DecidableEq α] (seen l : List α) (x : α) :
    x ∈ firstOccs seen l ↔ x ∈ l ∧ x ∉ seen := by
  induction l generalizing seen with
  | nil => simp [firstOccs]
  | cons y ys ih =>
    by_cases hy : y ∈ seen
    · rw [firstOccs, if_pos hy]
      constructor
      · intro h
        have h2 := (ih seen).1 h
        exact ⟨List.mem_cons_of_mem _ h2.1, h2.2⟩
      · rintro ⟨hx, hns⟩
        rcases List.mem_cons.1 hx with rfl | hx2
        · exact absurd hy hns
        · exact (ih seen).2 ⟨hx2, hns⟩
    · rw [firstOccs, if_neg hy]
      constructor
      · intro h
        rcases List.mem_cons.1 h with rfl | h2
        · exact ⟨List.mem_cons_self _ _, hy⟩
        · have h3 := (ih (y :: seen)).1 h2
          exact ⟨List.mem_cons_of_mem _ h3.1, fun hc => h3.2 (List.mem_cons_of_mem _ hc)⟩
      · rintro ⟨hx, hns⟩
        rcases List.mem_cons.1 hx with rfl | hx2
        · exact List.mem_cons_self _ _
        · by_cases hxy : x = y
          · subst hxy; exact List.mem_cons_self _ _
          · exact List.mem_cons_of_mem _
              ((ih (y :: seen)).2 ⟨hx2, fun hc => by
                rcases List.mem_cons.1 hc with h | h
                · exact hxy h
                · exact hns h⟩)

/-- `firstOccs` never repeats an element. -/
theorem nodup_firstOccs {α : Type} [DecidableEq α] (seen l : List α) :
    (firstOccs seen l).Nodup := by
  induction l generalizing seen with
  | nil => simp [firstOccs]
  | cons y ys ih =>
    by_cases hy : y ∈ seen
    · rw [firstOccs, if_pos hy]; exact ih seen
    · rw [firstOccs, if_neg hy]
      refine List.nodup_cons.2 ⟨?_, ih (y :: seen)⟩
      intro hc
      exact ((mem_firstOccs _ _ _).1 hc).2 (List.mem_cons_self _ _)

/-- Membership in `uniqueKeys` is membership in the underlying list. -/
theorem mem_uniqueKeys {α : Type} [DecidableEq α] (l : List α) (x : α) :
    x ∈ uniqueKeys l ↔ x ∈ l := by
  rw [uniqueKeys, mem_firstOccs]
  simp

/-- `uniqueKeys` has no duplicates. -/
theorem nodup_uniqueKeys {α : Type} [DecidableEq α] (l : List α) :
    (uniqueKeys l).Nodup :=
  nodup_firstOccs [] l

/-- Every row of the grouped count table is a real user with their true
(positive) message count. -/
theorem groupCounts_mem (msgs : List Msg) (p : String × Nat) (hp : p ∈ groupCounts msgs) :
    p.2 = userCount msgs p.1 ∧ 0 < p.2 := by
  rcases List.mem_map.1 hp with ⟨u, hu, rfl⟩
  refine ⟨rfl, ?_⟩
  have hu2 : u ∈ msgs.map (·.username) := (mem_uniqueKeys _ _).1 hu
  rcases List.mem_map.1 hu2 with ⟨m, hm, rfl⟩
  have hmem : m ∈ msgs.filter (fun x => x.username = m.username) :=
    List.mem_filter.2 ⟨hm, by simp⟩
  exact List.length_pos.2 (List.ne_nil_of_mem hmem)

/-- Rows of the capped rank table come from the grouped count table. -/
theorem rankPipeline_subset (msgs : List Msg) :
    ∀ p ∈ rankPipeline msgs, p ∈ groupCounts msgs := by
  intro p hp
  have h1 : p ∈ List.insertionSort (fun (a b : String × Nat) => b.2 ≤ a.2) (groupCounts msgs) :=
    List.take_subset _ _ hp
  exact (List.perm_insertionSort _ _).subset h1

/-- Every row of the capped rank table carries the row user's true, positive
message count for the filtered event set. -/
theorem mem_rankPipeline (msgs : List Msg) (p : String × Nat) (hp : p ∈ rankPipeline msgs) :
    p.2 = userCount msgs p.1 ∧ 0 < p.2 :=
  groupCounts_mem msgs p (rankPipeline_subset msgs p hp)

/-- The rank table is capped at `MAX_USERS_QUERY` rows. -/
theorem rankPipeline_length_le (msgs : List Msg) :
    (rankPipeline msgs).length ≤ MAX_USERS_QUERY := by
  simp [rankPipeline]

/-- When every event belongs to one user `w`, the rank table is empty or the
single row `(w, #events)`. -/
theorem rankPipeline_of_constant (l : List Msg) (w : String)
    (h : ∀ m ∈ l, m.username = w) :
    rankPipeline l = [] ∨ rankPipeline l = [(w, l.length)] := by
  have hU : ∀ x ∈ uniqueKeys (l.map (·.username)), x = w := by
    intro x hx
    rcases List.mem_map.1 ((mem_uniqueKeys _ _).1 hx) with ⟨m, hm, rfl⟩
    exact h m hm
  have hcnt : userCount l w = l.length := by
    unfold userCount
    rw [List.filter_eq_self.2 (fun m hm => by simp [h m hm])]
  rcases hli : uniqueKeys (l.map (·.username)) with _ | ⟨x, rest⟩
  · left
    simp [rankPipeline, groupCounts, hli]
  · have hx : x = w := hU x (by rw [hli]; exact List.mem_cons_self _ _)
    have hrest : rest = [] := by
      rcases rest with _ | ⟨y, rest2⟩
      · rfl
      · exfalso
        have hy : y = w := hU y (by rw [hli]; simp)
        have hnd := nodup_uniqueKeys (l.map (·.username))
        rw [hli] at hnd
        have hmem : x ∈ y :: rest2 := by rw [hx, ← hy]; exact List.mem_cons_self _ _
        exact (List.nodup_cons.1 hnd).1 hmem
    right
    subst hx
    rw [rankPipeline, groupCounts, hli, hrest]
    simp [hcnt, MAX_USERS_QUERY]

/-- Date filtering only discards events. -/
theorem applyDateFilter_subset (msgs : List Msg) (f : Option Int) :
    ∀ m ∈ applyDateFilter msgs f, m ∈ msgs := by
  intro m hm
  cases f with
  | none => exact hm
  | some s => exact List.mem_filter.1 hm |>.1

/-! ## Claim C6: percentile -/

/-- C6: `get_user_percentile` over the capped (≤ 1000 rows) rank table of the
period's events: rows carry true positive message counts; if the subject is
absent from the capped table the result is 0 (the zero-message case — counts
in the table are always positive, so "zero messages" can only mean absent or,
in the code, the unreachable `user_count == 0`); if the subject is found with
count `c`, the result is (#rows with count < c) / (#rows) × 100; and a sole
participant always gets percentile 0. -/
theorem C6_percentile_spec (msgs : List Msg) (u : String) (period : String) (now : Int) :
    (rankPipeline (applyDateFilter msgs (get_date_filter period now))).length ≤ 1000 ∧
    (∀ p ∈ rankPipeline (applyDateFilter msgs (get_date_filter period now)),
        p.2 = userCount (applyDateFilter msgs (get_date_filter period now)) p.1 ∧ 0 < p.2) ∧
    ((rankPipeline (applyDateFilter msgs (get_date_filter period now))).find?
        (fun p => p.1 = pyLower u) = none → get_user_percentile msgs u period now = 0) ∧
    (∀ nm c,
      (rankPipeline (applyDateFilter msgs (get_date_filter period now))).find?
          (fun p => p.1 = pyLower u) = some (nm, c) →
      get_user_percentile msgs u period now =
        (((rankPipeline (applyDateFilter msgs (get_date_filter period now))).filter
            (fun p => p.2 < c)).length : ℚ) /
          ((rankPipeline (applyDateFilter msgs (get_date_filter period now))).length : ℚ) * 100) ∧
    ((∀ m ∈ msgs, m.username = pyLower u) → get_user_percentile msgs u period now = 0) := by
  refine ⟨?_, ?_, ?_, ?_, ?_⟩
  · have h := rankPipeline_length_le (applyDateFilter msgs (get_date_filter period now))
    simpa [MAX_USERS_QUERY] using h
  · intro p hp
    exact mem_rankPipeline _ p hp
  · intro h
    by_cases hE : rankPipeline (applyDateFilter msgs (get_date_filter period now)) = []
    · simp [get_user_percentile, hE]
    · simp [get_user_percentile, hE, h]
  · intro nm c h
    have hmem := List.mem_of_find?_eq_some h
    have hE := List.ne_nil_of_mem hmem
    have hc : 0 < c := (mem_rankPipeline _ _ hmem).2
    have hlen : 0 < (rankPipeline (applyDateFilter msgs (get_date_filter period now))).length :=
      List.length_pos.2 hE
    simp [get_user_percentile, hE, h, Nat.pos_iff_ne_zero.1 hc, hlen]
  · intro h
    have h2 : ∀ m ∈ applyDateFilter msgs (get_date_filter period now), m.username = pyLower u :=
      fun m hm => h m (applyDateFilter_subset _ _ m hm)
    rcases rankPipeline_of_constant _ _ h2 with hE | hS
    · simp [get_user_percentile, hE]
    · by_cases hn : (applyDateFilter msgs (get_date_filter period now)).length = 0
      · simp [get_user_percentile, hS, hn]
      · simp [get_user_percentile, hS, hn]

/-- C6 witness: `C6_percentile_spec` at a concrete fixture where user `b`
(2 messages) outranks user `a` (1 message): percentile of `b` is
1/2 × 100 = 50. -/
theorem C6_percentile_spec_witness :
    (rankPipeline (applyDateFilter
        [⟨"a", "A", "hi", 1, 0⟩, ⟨"b", "B", "yo", 2, 1⟩, ⟨"b", "B", "yo", 3, 1⟩]
        (get_date_filter "all" 100))).find? (fun p => p.1 = pyLower "b") = some ("b", 2) ∧
    get_user_percentile
        [⟨"a", "A", "hi", 1, 0⟩, ⟨"b", "B", "yo", 2, 1⟩, ⟨"b", "B", "yo", 3, 1⟩]
        "b" "all" 100 =
      (((rankPipeline (applyDateFilter
          [⟨"a", "A", "hi", 1, 0⟩, ⟨"b", "B", "yo", 2, 1⟩, ⟨"b", "B", "yo", 3, 1⟩]
          (get_date_filter "all" 100))).filter (fun p => p.2 < 2)).length : ℚ) /
        ((rankPipeline (applyDateFilter
          [⟨"a", "A", "hi", 1, 0⟩, ⟨"b", "B", "yo", 2, 1⟩, ⟨"b", "B", "yo", 3, 1⟩]
          (get_date_filter "all" 100))).length : ℚ) * 100 :=
  ⟨by decide,
    (C6_percentile_spec
        [⟨"a", "A", "hi", 1, 0⟩, ⟨"b", "B", "yo", 2, 1⟩, ⟨"b", "B", "yo", 3, 1⟩]
        "b" "all" 100).2.2.2.1 "b" 2 (by decide)⟩

/-! ## Claim C3: rank delta -/

/-- The first-match rank search misses iff no row has the key. -/
theorem rankOfKey_eq_none_iff {α : Type} (key : α → String) (l : List α) (u : String) :
    rankOfKey key l u = none ↔ ∀ x ∈ l, key x ≠ u := by
  induction l with
  | nil => simp [rankOfKey]
  | cons a rest ih =>
    by_cases ha : key a = u
    · simp [rankOfKey, ha]
    · simp [rankOfKey, ha, ih]

/-- The first-match rank search returns `r` iff the table splits as
`l1 ++ x :: l2` with `key x = u`, no hit in `l1`, and `r = |l1| + 1`:
`r` is the 1-based position of the first matching row. -/
theorem rankOfKey_eq_some_iff {α : Type} (key : α → String) (l : List α) (u : String) (r : Nat) :
    rankOfKey key l u = some r ↔
      ∃ l1 x l2, l = l1 ++ x :: l2 ∧ key x = u ∧ (∀ y ∈ l1, key y ≠ u) ∧
        r = l1.length + 1 := by
  induction l generalizing r with
  | nil => simp [rankOfKey]
  | cons a rest ih =>
    by_cases ha : key a = u
    · rw [rankOfKey, if_pos ha]
      constructor
      · intro h
        have hr : r = 1 := (Option.some.inj h).symm
        exact ⟨[], a, rest, rfl, ha, by simp, by simp [hr]⟩
      · rintro ⟨l1, x, l2, heq, hx, hl1, hr⟩
        rcases l1 with _ | ⟨b, l1b⟩
        · simp only [List.nil_append] at heq
          rw [hr]
          rfl
        · exfalso
          have hab : a = b := by
            have := congrArg (fun t => t.head?) heq
            simpa using this
          exact hl1 b (hab ▸ List.mem_cons_self _ _) (hab ▸ ha)
    · rw [rankOfKey, if_neg ha]
      constructor
      · intro h
        rcases Option.map_eq_some'.1 h with ⟨r0, hr0, hr⟩
        rcases (ih r0).1 hr0 with ⟨l1, x, l2, heq, hx, hl1, hr1⟩
        refine ⟨a :: l1, x, l2, by rw [heq]; rfl, hx, ?_, ?_⟩
        · intro y hy
          rcases List.mem_cons.1 hy with rfl | hy2
          · exact ha
          · exact hl1 y hy2
        · simp [← hr, hr1]
      · rintro ⟨l1, x, l2, heq, hx, hl1, hr⟩
        rcases l1 with _ | ⟨b, l1b⟩
        · exfalso
          have hax : a = x := by
            have := congrArg (fun t => t.head?) heq
            simpa using this
          exact ha (hax ▸ hx)
        · have hab : a = b ∧ rest = l1b ++ x :: l2 := by
            refine ⟨?_, ?_⟩
            · have := congrArg (fun t => t.head?) heq
              simpa using this
            · have := congrArg List.tail heq
              simpa using this
          have h2 : rankOfKey key rest u = some (l1b.length + 1) := by
            refine (ih (l1b.length + 1)).2 ⟨l1b, x, l2, hab.2, hx, ?_, rfl⟩
            intro y hy
            exact hl1 y (List.mem_cons_of_mem _ hy)
          rw [h2]
          simp only [Option.map_some']
          rw [hr]
          simp

/-- Fixture for the C3 counterexample: user `a` has one message 20 days old
and one 10 days old (so `a` is ranked in the all-time table and in the prior
7-day window `[now-14d, now-7d)`, but has no message in the latest 7-day
window). -/
def exC3 : List Msg :=
  [⟨"a", "A", "x", 272000, 0⟩, ⟨"a", "A", "y", 1136000, 0⟩]

/-- C3 counterexample: for `period = "all"` at `now = 2000000`, the code
computes `top_rank_change = some 0` (all-time rank 1 vs prior-window rank 1)
even though the actor is absent from the latest 7-day window's ranked set —
the claim says the value must be absent then, and compares against the
latest 7-day window rather than the requested period's table. -/
theorem C3_counterexample :
    (get_user_rankings exC3 "a" "all" 2000000).top_rank_change = some 0 ∧
    rankOf (rankPipeline (exC3.filter
      (fun m => (2000000 : Int) - 7 * 86400 ≤ m.timestamp))) "a" = none := by
  decide

/-- C3 (amended): `top_rank_change` is `prior-window rank - current rank`
where the *current* rank is the actor's 1-based position in the capped rank
table of the **requested period's** window (not the latest 7-day window) and
the prior rank is the position in the `[now-14d, now-7d)` window's capped
table; positive exactly when the rank number decreased; absent whenever the
actor is missing from either of those two tables. -/
theorem C3_amended (msgs : List Msg) (u : String) (period : String) (now : Int) :
    (∀ r p,
      rankOf (rankPipeline (applyDateFilter msgs (get_date_filter period now)))
          (pyLower u) = some r →
      rankOf (prevWeekTable msgs now) (pyLower u) = some p →
      (get_user_rankings msgs u period now).top_rank_change = some ((p : Int) - (r : Int)) ∧
        (0 < (p : Int) - (r : Int) ↔ r < p)) ∧
    ((rankOf (rankPipeline (applyDateFilter msgs (get_date_filter period now)))
          (pyLower u) = none ∨
      rankOf (prevWeekTable msgs now) (pyLower u) = none) →
      (get_user_rankings msgs u period now).top_rank_change = none) ∧
    (prevWeekTable msgs now =
      rankPipeline (msgs.filter (fun m =>
        now - 14 * 86400 ≤ m.timestamp ∧ m.timestamp < now - 7 * 86400))) ∧
    (∀ r,
      rankOf (rankPipeline (applyDateFilter msgs (get_date_filter period now)))
          (pyLower u) = some r ↔
      ∃ l1 x l2,
        rankPipeline (applyDateFilter msgs (get_date_filter period now)) = l1 ++ x :: l2 ∧
          x.1 = pyLower u ∧ (∀ y ∈ l1, y.1 ≠ pyLower u) ∧ r = l1.length + 1) := by
  refine ⟨?_, ?_, rfl, ?_⟩
  · intro r p hr hp
    refine ⟨?_, by omega⟩
    simp [get_user_rankings, hr, hp]
  · intro h
    rcases h with h | h
    · simp [get_user_rankings, h]
    · rcases hcur : rankOf (rankPipeline (applyDateFilter msgs (get_date_filter period now)))
          (pyLower u) with _ | r
      · simp [get_user_rankings, hcur]
      · simp [get_user_rankings, hcur, h]
  · intro r
    exact rankOfKey_eq_some_iff Prod.fst _ _ r

/-- Fixture for the C3 witness: in the all-time table `b` (5 msgs) is rank 1
and `a` (2 msgs) is rank 2; in the prior 7-day window `b` (2 msgs) is rank 1
and `a` (1 msg) is rank 2. -/
def exC3w : List Msg :=
  [⟨"a", "A", "x", 1000000, 0⟩, ⟨"b", "B", "x", 1000001, 0⟩, ⟨"b", "B", "x", 1000002, 0⟩,
   ⟨"a", "A", "x", 1500000, 0⟩, ⟨"b", "B", "x", 1500001, 0⟩, ⟨"b", "B", "x", 1500002, 0⟩,
   ⟨"b", "B", "x", 1500003, 0⟩]

/-- C3 witness: `C3_amended` applied at `exC3w` for user `a`, period `all`,
`now = 2000000`: both ranks are 2, so the delta is `0`. -/
theorem C3_amended_witness :
    rankOf (rankPipeline (applyDateFilter exC3w (get_date_filter "all" 2000000)))
        (pyLower "a") = some 2 ∧
    rankOf (prevWeekTable exC3w 2000000) (pyLower "a") = some 2 ∧
    (get_user_rankings exC3w "a" "all" 2000000).top_rank_change =
      some ((2 : Int) - (2 : Int)) :=
  ⟨by decide, by decide,
    ((C3_amended exC3w "a" "all" 2000000).1 2 2 (by decide) (by decide)).1⟩

/-! ## Claim C4: peak hours -/

/-- Invariant of the `best_sum`/`best_start` loop: either no start beats the
accumulator (which is then returned unchanged), or the result strictly beats
the accumulator, dominates every start, attains its sum at the returned
start, and every start strictly before the returned one is strictly worse —
first-found tie-breaking in list order. -/
theorem peakFold_spec (counts : List Nat) (l : List Nat) (acc : Nat × Nat) :
    (peakFold counts l acc = acc ∧ ∀ s ∈ l, windowSum counts s ≤ acc.1) ∨
    (acc.1 < (peakFold counts l acc).1 ∧
      (∀ s ∈ l, windowSum counts s ≤ (peakFold counts l acc).1) ∧
      ∃ l1 l2, l = l1 ++ (peakFold counts l acc).2 :: l2 ∧
        windowSum counts (peakFold counts l acc).2 = (peakFold counts l acc).1 ∧
        ∀ s ∈ l1, windowSum counts s < (peakFold counts l acc).1) := by
  induction l generalizing acc with
  | nil => exact Or.inl ⟨rfl, by simp⟩
  | cons s rest ih =>
    have hstep : peakFold counts (s :: rest) acc =
        peakFold counts rest
          (if windowSum counts s > acc.1 then (windowSum counts s, s) else acc) := rfl
    by_cases hs : windowSum counts s > acc.1
    · rw [hstep, if_pos hs]
      rcases ih (windowSum counts s, s) with ⟨heq, hall⟩ | ⟨hlt, hall, l1, l2, hsplit, hatt, hfirst⟩
      · right
        rw [heq]
        refine ⟨hs, ?_, [], rest, by simp, rfl, by simp⟩
        intro t ht
        rcases List.mem_cons.1 ht with rfl | ht2
        · exact le_refl _
        · exact hall t ht2
      · right
        refine ⟨lt_trans hs hlt, ?_, s :: l1, l2, by
          conv_lhs => rw [hsplit]
          simp, hatt, ?_⟩
        · intro t ht
          rcases List.mem_cons.1 ht with rfl | ht2
          · exact le_of_lt hlt
          · exact hall t ht2
        · intro t ht
          rcases List.mem_cons.1 ht with rfl | ht2
          · exact hlt
          · exact hfirst t ht2
    · rw [hstep, if_neg hs]
      push_neg at hs
      rcases ih acc with ⟨heq, hall⟩ | ⟨hlt, hall, l1, l2, hsplit, hatt, hfirst⟩
      · left
        refine ⟨heq, ?_⟩
        intro t ht
        rcases List.mem_cons.1 ht with rfl | ht2
        · exact hs
        · exact hall t ht2
      · right
        refine ⟨hlt, ?_, s :: l1, l2, by
          conv_lhs => rw [hsplit]
          simp, hatt, ?_⟩
        · intro t ht
          rcases List.mem_cons.1 ht with rfl | ht2
          · exact le_of_lt (lt_of_le_of_lt hs hlt)
          · exact hall t ht2
        · intro t ht
          rcases List.mem_cons.1 ht with rfl | ht2
          · exact lt_of_le_of_lt hs hlt
          · exact hfirst t ht2

/-- Splitting `List.range n` at an element recovers its position: the prefix
is exactly `List.range s`. -/
theorem range_split (n : Nat) (l1 l2 : List Nat) (s : Nat)
    (h : List.range n = l1 ++ s :: l2) : s = l1.length ∧ l1 = List.range s := by
  have hlen : l1.length < n := by
    have h2 := congrArg List.length h
    simp at h2
    omega
  have h1 : (List.range n)[l1.length]? = some s := by
    rw [h, List.getElem?_append_right (le_refl _)]
    simp
  rw [List.getElem?_range hlen] at h1
  have hs : s = l1.length := (Option.some.inj h1).symm
  refine ⟨hs, ?_⟩
  have h3 : (List.range n).take l1.length = l1 := by
    rw [h]
    exact List.take_left l1 (s :: l2)
  have hmin : l1.length ⊓ n = l1.length := min_eq_left (le_of_lt hlen)
  rw [List.take_range, hmin] at h3
  rw [hs]
  exact h3.symm

/-- The wrap-around histogram of the claim: count 10 at hours 23, 0 and 1,
zero elsewhere. -/
def exHistC4 : List HourlyActivity :=
  (List.range 24).map (fun h => ⟨h, if h = 23 ∨ h = 0 ∨ h = 1 then 10 else 0⟩)

/-- C4: on a 24-bin histogram, `get_peak_hours` returns the empty list iff
every circular 3-hour window sums to 0; otherwise it returns the window
`[s, s+1 mod 24, s+2 mod 24]` whose start `s < 24` has maximal window sum,
with every earlier start strictly worse (first-found tie-break in ascending
start order); and on the wrap-around histogram with count 10 at hours
23, 0, 1 it returns `[23, 0, 1]`. -/
theorem C4_peak_hours_spec (ha : List HourlyActivity) (h24 : ha.length = 24) :
    ((∀ t < 24, windowSum (ha.map (·.count)) t = 0) → get_peak_hours ha = []) ∧
    (get_peak_hours ha = [] → ∀ t < 24, windowSum (ha.map (·.count)) t = 0) ∧
    ((∃ t, t < 24 ∧ windowSum (ha.map (·.count)) t ≠ 0) →
      ∃ s, s < 24 ∧ get_peak_hours ha = [s, (s + 1) % 24, (s + 2) % 24] ∧
        windowSum (ha.map (·.count)) s ≠ 0 ∧
        (∀ t < 24, windowSum (ha.map (·.count)) t ≤ windowSum (ha.map (·.count)) s) ∧
        (∀ t < s, windowSum (ha.map (·.count)) t < windowSum (ha.map (·.count)) s)) ∧
    get_peak_hours exHistC4 = [23, 0, 1] := by
  have hne : ha ≠ [] := by
    intro hcon
    rw [hcon] at h24
    simp at h24
  rcases peakFold_spec (ha.map (·.count)) (List.range 24) (0, 0) with
    ⟨heq, hall⟩ | ⟨hpos, hall, l1, l2, hsplit, hatt, hfirst⟩
  · have hzero : ∀ t < 24, windowSum (ha.map (·.count)) t = 0 := by
      intro t ht
      exact Nat.le_zero.1 (hall t (List.mem_range.2 ht))
    have hres : get_peak_hours ha = [] := by
      unfold get_peak_hours
      rw [if_neg hne]
      show (if (peakFold (List.map (fun x => x.count) ha) (List.range 24) (0, 0)).1 = 0
          then ([] : List ℕ)
          else List.map
            (fun i => ((peakFold (List.map (fun x => x.count) ha) (List.range 24) (0, 0)).2 + i) % 24)
            (List.range 3)) = []
      rw [heq]
      simp
    refine ⟨fun _ => hres, fun _ => hzero, ?_, by decide⟩
    rintro ⟨t, ht, hnz⟩
    exact absurd (hzero t ht) hnz
  · set r := peakFold (ha.map (·.count)) (List.range 24) (0, 0) with hr
    have hs24 : r.2 < 24 := by
      have : r.2 ∈ List.range 24 := by
        rw [hsplit]
        exact List.mem_append_right _ (List.mem_cons_self _ _)
      exact List.mem_range.1 this
    have hnz : windowSum (ha.map (·.count)) r.2 ≠ 0 := by
      rw [hatt]
      omega
    have hres : get_peak_hours ha = [r.2, (r.2 + 1) % 24, (r.2 + 2) % 24] := by
      unfold get_peak_hours
      rw [if_neg hne]
      show (if r.1 = 0 then ([] : List ℕ)
          else List.map (fun i => (r.2 + i) % 24) (List.range 3)) =
        [r.2, (r.2 + 1) % 24, (r.2 + 2) % 24]
      rw [if_neg (by omega : ¬ r.1 = 0)]
      have hmod : r.2 % 24 = r.2 := Nat.mod_eq_of_lt hs24
      simp [List.range_succ, hmod]
    have hpre := range_split 24 l1 l2 r.2 hsplit
    refine ⟨?_, ?_, ?_, by decide⟩
    · intro hzero
      exact absurd (hzero r.2 hs24) hnz
    · intro hemp
      rw [hres] at hemp
      exact absurd hemp (by simp)
    · intro _
      refine ⟨r.2, hs24, hres, hnz, ?_, ?_⟩
      · intro t ht
        rw [hatt]
        exact hall t (List.mem_range.2 ht)
      · intro t ht
        rw [hatt]
        refine hfirst t ?_
        rw [hpre.2]
        exact List.mem_range.2 (lt_of_lt_of_eq ht (rfl))

/-- C4 witness: `C4_peak_hours_spec` at the wrap-around histogram. -/
theorem C4_peak_hours_spec_witness :
    exHistC4.length = 24 ∧ get_peak_hours exHistC4 = [23, 0, 1] :=
  ⟨by decide, (C4_peak_hours_spec exHistC4 (by decide)).2.2.2⟩

/-! ## Claim C5: growth percent -/

/-- Every record of the internal `growth_data` list carries its user's true
window counts and the growth formula applied to them. -/
theorem risingGrowthData_mem (msgs : List Msg) (now : Int) (g : GrowthRec)
    (hg : g ∈ risingGrowthData msgs now) :
    g.current_count = userCount (currentWindow msgs now) g.username ∧
    g.previous_count = userCount (prevWindow msgs now) g.username ∧
    g.growth_percent = growthPercent g.current_count g.previous_count := by
  rcases List.mem_map.1 hg with ⟨u, hu, rfl⟩
  exact ⟨rfl, rfl, rfl⟩

/-- C5: in the growth ranking, every internal record's `growth_percent` is
`current * 10` when `previous = 0` and `((current - previous)/previous) * 100`
otherwise, over the true counts of the two back-to-back 7-day windows; every
emitted entry carries that value rounded to one decimal; and the two claimed
instances hold: `(previous, current) = (0, 5)` and `(10, 15)` both give 50. -/
theorem C5_growth_spec (msgs : List Msg) (now : Int) (limit : Nat) :
    (∀ g ∈ risingGrowthData msgs now,
      g.current_count = userCount (currentWindow msgs now) g.username ∧
      g.previous_count = userCount (prevWindow msgs now) g.username ∧
      g.growth_percent =
        (if g.previous_count = 0 then (g.current_count : ℚ) * 10
         else (((g.current_count : ℚ) - (g.previous_count : ℚ)) / (g.previous_count : ℚ)) * 100)) ∧
    (∀ e ∈ get_rising_stars msgs now limit,
      e.growth_percent = roundTo1
        (if e.previous_count = 0 then (e.current_count : ℚ) * 10
         else (((e.current_count : ℚ) - (e.previous_count : ℚ)) / (e.previous_count : ℚ)) * 100)) ∧
    growthPercent 5 0 = 50 ∧
    growthPercent 15 10 = 50 := by
  refine ⟨?_, ?_, by norm_num [growthPercent], by norm_num [growthPercent]⟩
  · intro g hg
    have h := risingGrowthData_mem msgs now g hg
    exact ⟨h.1, h.2.1, h.2.2⟩
  · intro e he
    rcases List.mem_map.1 he with ⟨⟨i, g⟩, hmem, rfl⟩
    have hg : g ∈ risingGrowthData msgs now := by
      have h1 := List.mem_enum hmem
      have h2 : g ∈ (List.insertionSort
          (fun (a b : GrowthRec) => b.growth_percent ≤ a.growth_percent)
          (risingGrowthData msgs now)).take limit := by
        rw [h1.2]
        exact List.getElem_mem h1.1
      exact (List.perm_insertionSort _ _).subset (List.mem_of_mem_take h2)
    have h := risingGrowthData_mem msgs now g hg
    show roundTo1 g.growth_percent = _
    rw [h.2.2]
    rfl

/-- Fixture for the C5 witness: user `new` has 5 messages in the current
7-day window and none before; user `old` grew from 10 to 15. -/
def exC5 : List Msg :=
  (List.range 5).map (fun i => ⟨"new", "New", "m", 1000000 - (i : Int), 3⟩) ++
  (List.range 15).map (fun i => ⟨"old", "Old", "m", 1000000 - (i : Int), 4⟩) ++
  (List.range 10).map (fun i => ⟨"old", "Old", "m", 1000000 - 8 * 86400 - (i : Int), 4⟩)

/-- The first `growth_data` record at the C5 witness fixture (user `new`). -/
def gC5 : GrowthRec := (risingGrowthData exC5 1000000).head (by decide)

/-- C5 witness: `C5_growth_spec` at `exC5`: the brand-new user's record has
`previous = 0`, `current = 5`, and its growth percent is given by the
`previous = 0` branch of the formula (5 × 10). -/
theorem C5_growth_spec_witness :
    gC5 ∈ risingGrowthData exC5 1000000 ∧
    gC5.username = "new" ∧ gC5.previous_count = 0 ∧ gC5.current_count = 5 ∧
    gC5.growth_percent =
      (if gC5.previous_count = 0 then (gC5.current_count : ℚ) * 10
       else (((gC5.current_count : ℚ) - (gC5.previous_count : ℚ)) /
          (gC5.previous_count : ℚ)) * 100) :=
  ⟨List.head_mem _, by decide, by decide, by decide,
    ((C5_growth_spec exC5 1000000 10).1 gC5 (List.head_mem _)).2.2⟩

/-! ## Claim C8: 24-bin histograms and their totals -/

/-- Splitting an hour filter at `n`: events below `n + 1` are those below `n`
plus those exactly at `n`. -/
theorem filter_hour_lt_succ (l : List Msg) (n : Nat) :
    (l.filter (fun m => m.hour < n + 1)).length =
      (l.filter (fun m => m.hour < n)).length + (l.filter (fun m => m.hour = n)).length := by
  induction l with
  | nil => simp
  | cons m rest ih =>
    by_cases h1 : m.hour < n + 1
    · by_cases h2 : m.hour < n
      · have h3 : ¬ m.hour = n := by omega
        simp only [List.filter_cons]
        simp [h1, h2, h3, ih]
        omega
      · have h3 : m.hour = n := by omega
        simp only [List.filter_cons]
        simp [h1, h2, h3, ih]
        omega
    · have h2 : ¬ m.hour < n := by omega
      have h3 : ¬ m.hour = n := by omega
      simp only [List.filter_cons]
      simp [h1, h2, h3, ih]

/-- The hour-of-day bins partition the events: summing the first `n` bins
counts exactly the events with hour below `n`. -/
theorem sum_hour_bins (l : List Msg) (n : Nat) :
    ((List.range n).map (fun h => (l.filter (fun m => m.hour = h)).length)).sum =
      (l.filter (fun m => m.hour < n)).length := by
  induction n with
  | zero => simp
  | succ n ih =>
    rw [List.range_succ]
    simp only [List.map_append, List.sum_append, List.map_cons, List.map_nil,
      List.sum_cons, List.sum_nil]
    rw [ih, filter_hour_lt_succ]
    omega

/-- Extract the computed fields of a successful `get_user_stats` call. -/
theorem get_user_stats_fields (msgs : List Msg) (username period : String) (now : Int)
    (c : EmoteCache) (fr : FetchResult) (st : UserStats)
    (h : get_user_stats msgs username period now c fr = some st) :
    st.total_messages = (applyDateFilter (msgs.filter (fun m => m.username = pyLower username))
        (get_date_filter period now)).length ∧
    st.hourly_activity = (List.range 24).map (fun hr =>
      HourlyActivity.mk hr
        (((applyDateFilter (msgs.filter (fun m => m.username = pyLower username))
          (get_date_filter period now)).filter (fun m => m.hour = hr)).length)) ∧
    st.recent_messages = ((List.insertionSort (fun (a b : Msg) => b.timestamp ≤ a.timestamp)
        (msgs.filter (fun m => m.username = pyLower username))).take 10).map
        (fun m => RecentMessage.mk m.message m.timestamp) := by
  simp only [get_user_stats] at h
  by_cases ht : (applyDateFilter (msgs.filter (fun m => m.username = pyLower username))
      (get_date_filter period now)).length = 0
  · rw [if_pos ht] at h
    exact absurd h (by simp)
  · rw [if_neg ht] at h
    have h2 := Option.some.inj h
    exact ⟨by rw [← h2], by rw [← h2], by rw [← h2]⟩

/-- C8: the per-user histogram of `get_user_stats` has exactly 24 bins and
its bins sum to the independently counted total (the `$count` facet, i.e. the
number of events matching the same username + period filter); likewise the
overall histogram of `get_overall_hourly_activity` has 24 bins summing to the
total event count.  The hour-range hypothesis is the ingestion invariant
(`hour` is a UTC-3 hour of day, `0 ≤ hour < 24`). -/
theorem C8_histogram_spec (msgs : List Msg) (username period : String) (now : Int)
    (c : EmoteCache) (fr : FetchResult) (st : UserStats)
    (hh : ∀ m ∈ msgs, m.hour < 24)
    (h : get_user_stats msgs username period now c fr = some st) :
    st.hourly_activity.length = 24 ∧
    (st.hourly_activity.map (·.count)).sum = st.total_messages ∧
    st.total_messages = (applyDateFilter (msgs.filter (fun m => m.username = pyLower username))
        (get_date_filter period now)).length ∧
    (get_overall_hourly_activity msgs).1.length = 24 ∧
    ((get_overall_hourly_activity msgs).1.map (·.count)).sum = msgs.length ∧
    (get_overall_hourly_activity msgs).2.1 = msgs.length := by
  obtain ⟨hto, hha, -⟩ := get_user_stats_fields msgs username period now c fr st h
  have hfil : ∀ m ∈ applyDateFilter (msgs.filter (fun m => m.username = pyLower username))
      (get_date_filter period now), m.hour < 24 := by
    intro m hm
    have h1 := applyDateFilter_subset _ _ m hm
    exact hh m (List.mem_filter.1 h1).1
  have hsum : ∀ (l : List Msg), (∀ m ∈ l, m.hour < 24) →
      (((List.range 24).map (fun hr => (l.filter (fun m => m.hour = hr)).length)).sum) =
        l.length := by
    intro l hl
    rw [sum_hour_bins]
    congr 1
    exact List.filter_eq_self.2 (fun m hm => by simp [hl m hm])
  refine ⟨?_, ?_, hto, ?_, ?_, ?_⟩
  · rw [hha]
    simp
  · rw [hha, hto, List.map_map]
    exact hsum _ hfil
  · simp [get_overall_hourly_activity]
  · simp only [get_overall_hourly_activity, List.map_map]
    exact hsum msgs hh
  · simp only [get_overall_hourly_activity, List.map_map]
    exact hsum msgs hh

/-- Fixture for the C8 witness. -/
def exC8 : List Msg := [⟨"a", "A", "x", 5, 3⟩, ⟨"a", "A", "y", 80000, 7⟩]

/-- The `get_user_stats` result at the C8 witness fixture. -/
def stC8 : UserStats :=
  (get_user_stats exC8 "a" "all" 100000 ⟨none, none⟩ (FetchResult.ok [])).get (by decide)

/-- C8 witness: `C8_histogram_spec` at `exC8`: 24 bins, bins sum to the
2-message total. -/
theorem C8_histogram_spec_witness :
    get_user_stats exC8 "a" "all" 100000 ⟨none, none⟩ (FetchResult.ok []) = some stC8 ∧
    stC8.hourly_activity.length = 24 ∧
    (stC8.hourly_activity.map (·.count)).sum = stC8.total_messages ∧
    ((get_overall_hourly_activity exC8).1.map (·.count)).sum = exC8.length :=
  ⟨(Option.some_get _).symm,
    (C8_histogram_spec exC8 "a" "all" 100000 ⟨none, none⟩ (FetchResult.ok []) stC8
      (by decide) (Option.some_get _).symm).1,
    (C8_histogram_spec exC8 "a" "all" 100000 ⟨none, none⟩ (FetchResult.ok []) stC8
      (by decide) (Option.some_get _).symm).2.1,
    (C8_histogram_spec exC8 "a" "all" 100000 ⟨none, none⟩ (FetchResult.ok []) stC8
      (by decide) (Option.some_get _).symm).2.2.2.2.1⟩

/-! ## Claim C9: reply correlator -/

/-- Lookup of an actor's tally in the `reply_counts` dict. -/
def replyLookup : List (String × String × Nat) → String → Nat
  | [], _ => 0
  | p :: rest, b => if p.1 = b then p.2.2 else replyLookup rest b

/-- The claim-side per-actor credit: for each subject message, the number of
the actor's messages among the *first 50* store-order messages of the
10-second look-back window. -/
def creditOf (msgs : List Msg) (lowered : String) (subject : List Msg) (b : String) : Nat :=
  (subject.map (fun msg =>
    (((windowMsgs msgs lowered msg.timestamp).take 50).filter
      (fun m => m.username = b)).length)).sum

/-- Unfolding `replyLookup` on a cons cell. -/
theorem replyLookup_cons (q : String × String × Nat) (l : List (String × String × Nat))
    (b : String) :
    replyLookup (q :: l) b = if q.1 = b then q.2.2 else replyLookup l b := rfl

/-- Lookup after the increment-existing-key branch of `bumpReply`. -/
theorem replyLookup_map_bump (counts : List (String × String × Nat)) (mu b : String) :
    replyLookup (counts.map (fun p => if p.1 = mu then (p.1, p.2.1, p.2.2 + 1) else p)) b =
      replyLookup counts b +
        (if mu = b ∧ counts.any (fun p => p.1 = b) = true then 1 else 0) := by
  induction counts with
  | nil => simp [replyLookup]
  | cons p rest ih =>
    have hkey : (if p.1 = mu then (p.1, p.2.1, p.2.2 + 1) else p).1 = p.1 := by
      by_cases hmu : p.1 = mu <;> simp [hmu]
    rw [List.map_cons, replyLookup_cons, replyLookup_cons, List.any_cons, hkey]
    by_cases hp : p.1 = b
    · rw [if_pos hp, if_pos hp]
      by_cases hmu : p.1 = mu
      · have hmb : mu = b := by rw [← hmu]; exact hp
        rw [if_pos hmu]
        rw [if_pos ⟨hmb, by simp [hp]⟩]
      · have hmb : ¬ mu = b := by
          intro hc
          exact hmu (by rw [hp, hc])
        rw [if_neg hmu, if_neg (fun hc => hmb hc.1)]
        rfl
    · rw [if_neg hp, if_neg hp, ih]
      have h2 : (decide (p.1 = b) || rest.any fun p => decide (p.1 = b)) =
          (rest.any fun p => decide (p.1 = b)) := by
        simp [hp]
      rw [h2]

/-- Lookup over an append: the left dict wins when it has the key. -/
theorem replyLookup_append (counts l2 : List (String × String × Nat)) (b : String) :
    replyLookup (counts ++ l2) b =
      if counts.any (fun p => p.1 = b) = true then replyLookup counts b
      else replyLookup l2 b := by
  induction counts with
  | nil => simp [replyLookup]
  | cons p rest ih =>
    rw [List.cons_append, replyLookup_cons, replyLookup_cons, List.any_cons]
    by_cases hp : p.1 = b
    · rw [if_pos hp, if_pos (by simp [hp]), if_pos hp]
    · rw [if_neg hp, ih]
      have h2 : (decide (p.1 = b) || rest.any fun p => decide (p.1 = b)) =
          (rest.any fun p => decide (p.1 = b)) := by
        simp [hp]
      rw [h2]
      by_cases hr : (rest.any fun p => decide (p.1 = b)) = true
      · rw [if_pos hr, if_pos hr, if_neg hp]
      · rw [if_neg hr, if_neg hr]

/-- A dict without the key looks up to 0. -/
theorem replyLookup_eq_zero (counts : List (String × String × Nat)) (b : String) :
    ¬ counts.any (fun p => p.1 = b) = true → replyLookup counts b = 0 := by
  induction counts with
  | nil => intro _; rfl
  | cons p rest ih =>
    intro h
    rw [List.any_cons] at h
    have hp : ¬ p.1 = b := by
      intro hc
      exact h (by simp [hc])
    have hrest : ¬ (rest.any fun p => decide (p.1 = b)) = true := by
      intro hc
      exact h (by simp [hc])
    rw [replyLookup_cons, if_neg hp]
    exact ih hrest

/-- One `bumpReply` adds exactly one credit to the message's author. -/
theorem bumpReply_lookup (counts : List (String × String × Nat)) (m : Msg) (b : String) :
    replyLookup (bumpReply counts m) b =
      replyLookup counts b + (if m.username = b then 1 else 0) := by
  by_cases hany : counts.any (fun p => p.1 = m.username) = true
  · rw [bumpReply, if_pos hany, replyLookup_map_bump]
    by_cases hmb : m.username = b
    · subst hmb
      simp [hany]
    · simp [hmb]
  · rw [bumpReply, if_neg hany, replyLookup_append]
    by_cases hb : counts.any (fun p => p.1 = b) = true
    · have hmb : ¬ m.username = b := by
        intro hc
        rw [hc] at hany
        exact hany hb
      simp [hb, hmb]
    · rw [if_neg hb, replyLookup_eq_zero counts b hb]
      by_cases hmb : m.username = b <;> simp [replyLookup, hmb]

/-- Crediting a batch of messages adds one credit per message of the actor. -/
theorem foldl_bumpReply_lookup (ms : List Msg) (counts : List (String × String × Nat))
    (b : String) :
    replyLookup (ms.foldl bumpReply counts) b =
      replyLookup counts b + (ms.filter (fun m => m.username = b)).length := by
  induction ms generalizing counts with
  | nil => simp
  | cons m rest ih =>
    rw [List.foldl_cons, ih, bumpReply_lookup]
    by_cases hm : m.username = b <;> simp [hm, List.filter_cons] <;> omega

/-- The outer loop of `get_top_replies`, generalized over the accumulator. -/
theorem replyCounts_lookup_general (msgs : List Msg) (lowered : String)
    (subject : List Msg) (counts : List (String × String × Nat)) (b : String) :
    replyLookup (subject.foldl (fun counts msg =>
        ((windowMsgs msgs lowered msg.timestamp).take 50).foldl bumpReply counts) counts) b =
      replyLookup counts b + creditOf msgs lowered subject b := by
  induction subject generalizing counts with
  | nil => simp [creditOf]
  | cons msg rest ih =>
    rw [List.foldl_cons, ih, foldl_bumpReply_lookup]
    simp [creditOf]
    omega

/-- The `reply_counts` tally of actor `b` is exactly the claim-side credit. -/
theorem replyCounts_lookup (msgs : List Msg) (lowered : String) (subject : List Msg)
    (b : String) :
    replyLookup (replyCounts msgs lowered subject) b = creditOf msgs lowered subject b := by
  have h := replyCounts_lookup_general msgs lowered subject [] b
  simpa [replyCounts, replyLookup] using h

/-- `bumpReply` keeps the dict keys duplicate-free. -/
theorem bumpReply_keys_nodup (counts : List (String × String × Nat)) (m : Msg)
    (h : (counts.map (fun p => p.1)).Nodup) :
    ((bumpReply counts m).map (fun p => p.1)).Nodup := by
  by_cases hany : counts.any (fun p => p.1 = m.username) = true
  · rw [bumpReply, if_pos hany]
    have heq : (counts.map (fun p =>
        if p.1 = m.username then (p.1, p.2.1, p.2.2 + 1) else p)).map (fun p => p.1) =
        counts.map (fun p => p.1) := by
      rw [List.map_map]
      apply List.map_congr_left
      intro p _
      by_cases hp : p.1 = m.username <;> simp [hp]
    rw [heq]
    exact h
  · rw [bumpReply, if_neg hany, List.map_append]
    refine List.Nodup.append h (by simp) ?_
    intro a ha hb
    simp at hb
    subst hb
    rcases List.mem_map.1 ha with ⟨p, hp, hkey⟩
    exact hany (List.any_eq_true.2 ⟨p, hp, by simp [hkey]⟩)

/-- The `reply_counts` dict has duplicate-free keys. -/
theorem replyCounts_keys_nodup (msgs : List Msg) (lowered : String) (subject : List Msg) :
    ((replyCounts msgs lowered subject).map (fun p => p.1)).Nodup := by
  have hgen : ∀ (sub : List Msg) (counts : List (String × String × Nat)),
      (counts.map (fun p => p.1)).Nodup →
      ((sub.foldl (fun counts msg =>
        ((windowMsgs msgs lowered msg.timestamp).take 50).foldl bumpReply counts)
          counts).map (fun p => p.1)).Nodup := by
    intro sub
    induction sub with
    | nil => intro counts h; exact h
    | cons msg rest ih =>
      intro counts h
      rw [List.foldl_cons]
      apply ih
      have hinner : ∀ (ms : List Msg) (cs : List (String × String × Nat)),
          (cs.map (fun p => p.1)).Nodup → ((ms.foldl bumpReply cs).map (fun p => p.1)).Nodup := by
        intro ms
        induction ms with
        | nil => intro cs hcs; exact hcs
        | cons m2 rest2 ih2 =>
          intro cs hcs
          rw [List.foldl_cons]
          exact ih2 _ (bumpReply_keys_nodup cs m2 hcs)
      exact hinner _ counts h
  exact hgen subject [] (by simp)

/-- In a dict with duplicate-free keys, membership determines the lookup. -/
theorem replyLookup_of_mem (counts : List (String × String × Nat)) (b dn : String)
    (cnt : Nat) (hnd : (counts.map (fun p => p.1)).Nodup)
    (hmem : (b, dn, cnt) ∈ counts) :
    replyLookup counts b = cnt := by
  induction counts with
  | nil => cases hmem
  | cons p rest ih =>
    have hnd2 : (p.1 :: rest.map (fun q => q.1)).Nodup := by simpa using hnd
    rcases List.mem_cons.1 hmem with rfl | hmem2
    · simp [replyLookup]
    · have hp : ¬ p.1 = b := by
        intro hc
        have hb : b ∈ rest.map (fun q => q.1) :=
          List.mem_map.2 ⟨(b, dn, cnt), hmem2, rfl⟩
        rw [← hc] at hb
        exact (List.nodup_cons.1 hnd2).1 hb
      simp only [replyLookup, if_neg hp]
      exact ih (List.nodup_cons.1 hnd2).2 hmem2

/-- Fixture for the C9 counterexample: 51 messages of `b` inside the
10-second window before `a`'s message at t = 100. -/
def exC9 : List Msg :=
  (List.range 51).map (fun _ => ⟨"b", "B", "m", 95, 0⟩) ++ [⟨"a", "A", "m", 100, 0⟩]

set_option maxRecDepth 40000 in
/-- C9 counterexample: with 51 of `b`'s messages in the look-back window,
`b` receives 50 credits — not one per window message as the claim states —
because each window query is capped at `limit(50)`. -/
theorem C9_counterexample :
    get_top_replies exC9 "a" "all" 0 5 = [⟨"b", "B", 50⟩] ∧
    ((windowMsgs exC9 "a" 100).filter (fun m => m.username = "b")).length = 51 := by
  constructor
  · decide
  · decide

/-- Fixture for the C9 instance: `a` posts at t = 100; `b` posted at t = 95
(inside `[90, 100)`) and t = 80 (outside). -/
def exC9b : List Msg :=
  [⟨"b", "B", "m", 80, 0⟩, ⟨"b", "B", "m", 95, 0⟩, ⟨"a", "A", "m", 100, 0⟩]

/-- C9 (amended): every returned reply tally equals, per subject message, the
number of the actor's messages among the *first 50* (store order) messages of
other actors in `[t-10s, t)` — the `limit(50)` cap is the only deviation from
the claim, and whenever every window holds at most 50 messages the tally is
exactly one credit per window message, as the claim states; in the concrete
A/B instance (B at t = 95 and t = 80 against A's t = 100) B's credit is 1. -/
theorem C9_reply_spec (msgs : List Msg) (u : String) (period : String) (now : Int)
    (limit : Nat) :
    (∀ e ∈ get_top_replies msgs u period now limit,
      e.reply_count = creditOf msgs (pyLower u) (replySubject msgs (pyLower u) period now)
        e.username) ∧
    (∀ b, (∀ msg ∈ replySubject msgs (pyLower u) period now,
        (windowMsgs msgs (pyLower u) msg.timestamp).length ≤ 50) →
      creditOf msgs (pyLower u) (replySubject msgs (pyLower u) period now) b =
        ((replySubject msgs (pyLower u) period now).map (fun msg =>
          ((windowMsgs msgs (pyLower u) msg.timestamp).filter
            (fun m => m.username = b)).length)).sum) ∧
    get_top_replies exC9b "a" "all" 0 5 = [⟨"b", "B", 1⟩] := by
  refine ⟨?_, ?_, by decide⟩
  · intro e he
    simp only [get_top_replies] at he
    by_cases hsub : replySubject msgs (pyLower u) period now = []
    · rw [if_pos hsub] at he
      exact absurd he (List.not_mem_nil e)
    · rw [if_neg hsub] at he
      rcases List.mem_map.1 he with ⟨p, hp, rfl⟩
      rcases p with ⟨b2, dn2, cnt2⟩
      have hpc : (b2, dn2, cnt2) ∈
          replyCounts msgs (pyLower u) (replySubject msgs (pyLower u) period now) :=
        (List.perm_insertionSort _ _).subset (List.mem_of_mem_take hp)
      show cnt2 = creditOf msgs (pyLower u) (replySubject msgs (pyLower u) period now) b2
      rw [← replyCounts_lookup]
      exact (replyLookup_of_mem _ b2 dn2 cnt2
        (replyCounts_keys_nodup msgs (pyLower u) _) hpc).symm
  · intro b hle
    unfold creditOf
    congr 1
    apply List.map_congr_left
    intro msg hmsg
    rw [List.take_of_length_le (hle msg hmsg)]

/-- C9 witness: `C9_reply_spec` at the A/B fixture: the single returned entry
for `b` carries credit 1, the claim-side per-window credit. -/
theorem C9_reply_spec_witness :
    (⟨"b", "B", 1⟩ : ReplyTarget) ∈ get_top_replies exC9b "a" "all" 0 5 ∧
    (⟨"b", "B", 1⟩ : ReplyTarget).reply_count =
      creditOf exC9b (pyLower "a") (replySubject exC9b (pyLower "a") "all" 0) "b" :=
  ⟨by decide, (C9_reply_spec exC9b "a" "all" 0 5).1 ⟨"b", "B", 1⟩ (by decide)⟩

/-! ## Claim C10: recent messages ignore the requested period -/

/-- C10: inside a successful composite result, `recent_messages` is the
first 10 entries of the user's messages sorted newest first over **all
time** — the query at `stats_service.py:168-170` carries no timestamp
filter, so the requested period's window is ignored and entries may predate
it; the list is sorted newest-first, its length is `min 10 (#messages of the
user over all time)`, and the sorted pool is a permutation of all the user's
messages. -/
theorem C10_recent_messages_spec (msgs : List Msg) (username period : String)
    (now : Int) (c : EmoteCache) (fr : FetchResult) (st : UserStats)
    (h : get_user_stats msgs username period now c fr = some st) :
    st.recent_messages = ((List.insertionSort (fun (a b : Msg) => b.timestamp ≤ a.timestamp)
        (msgs.filter (fun m => m.username = pyLower username))).take 10).map
        (fun m => RecentMessage.mk m.message m.timestamp) ∧
    st.recent_messages.length =
      min 10 (msgs.filter (fun m => m.username = pyLower username)).length ∧
    List.Pairwise (fun a b => b.timestamp ≤ a.timestamp) st.recent_messages ∧
    (List.insertionSort (fun (a b : Msg) => b.timestamp ≤ a.timestamp)
        (msgs.filter (fun m => m.username = pyLower username))).Perm
      (msgs.filter (fun m => m.username = pyLower username)) := by
  obtain ⟨-, -, hrm⟩ := get_user_stats_fields msgs username period now c fr st h
  have hperm := List.perm_insertionSort (fun (a b : Msg) => b.timestamp ≤ a.timestamp)
    (msgs.filter (fun m => m.username = pyLower username))
  refine ⟨hrm, ?_, ?_, hperm⟩
  · rw [hrm]
    rw [List.length_map, List.length_take, hperm.length_eq]
  · rw [hrm]
    haveI ht : IsTotal Msg (fun a b => b.timestamp ≤ a.timestamp) :=
      ⟨fun a b => le_total b.timestamp a.timestamp⟩
    haveI htr : IsTrans Msg (fun a b => b.timestamp ≤ a.timestamp) :=
      ⟨fun _ _ _ h1 h2 => le_trans h2 h1⟩
    have hsorted : List.Sorted (fun (a b : Msg) => b.timestamp ≤ a.timestamp)
        (List.insertionSort (fun (a b : Msg) => b.timestamp ≤ a.timestamp)
          (msgs.filter (fun m => m.username = pyLower username))) :=
      List.sorted_insertionSort _ _
    have htake := List.Pairwise.sublist (List.take_sublist 10 _) hsorted
    exact List.pairwise_map.2 htake

/-- Fixture for the C10 witness: user `a` has an old message (t = 100) far
outside the day window and a fresh one (t = 199995). -/
def exC10 : List Msg :=
  [⟨"a", "A", "old", 100, 0⟩, ⟨"a", "A", "new", 199995, 1⟩]

/-- The composite result at the C10 witness fixture (period `day`,
`now = 200000`). -/
def stC10 : UserStats :=
  (get_user_stats exC10 "a" "day" 200000 ⟨none, none⟩ (FetchResult.ok [])).get (by decide)

/-- C10 witness: `C10_recent_messages_spec` at `exC10` with period `day`:
`recent_messages` contains the t = 100 message even though the day window
starts at t = 113600. -/
theorem C10_recent_messages_spec_witness :
    get_user_stats exC10 "a" "day" 200000 ⟨none, none⟩ (FetchResult.ok []) = some stC10 ∧
    stC10.recent_messages = ((List.insertionSort (fun (a b : Msg) => b.timestamp ≤ a.timestamp)
        (exC10.filter (fun m => m.username = pyLower "a"))).take 10).map
        (fun m => RecentMessage.mk m.message m.timestamp) ∧
    stC10.recent_messages = [⟨"new", 199995⟩, ⟨"old", 100⟩] ∧
    (100 : Int) < 200000 - 86400 :=
  ⟨(Option.some_get _).symm,
    (C10_recent_messages_spec exC10 "a" "day" 200000 ⟨none, none⟩ (FetchResult.ok [])
      stC10 (Option.some_get _).symm).1,
    by decide, by decide⟩

/-! ## Claim C7: rival finder -/

/-- A pool candidate that survives the loop's guards: not the subject, and
with a nonzero activity vector. -/
def eligC (lowered : String) (c : RivalCand) : Prop :=
  c.username ≠ lowered ∧ sumSq c.vector ≠ 0

/-- The loop accumulator's invariant: its cached dot product and squared
magnitude belong to its candidate, which is eligible. -/
def accGood (uv : List Nat) (lowered : String) (a : RivalAcc) : Prop :=
  a.dp = dotN uv a.cand.vector ∧ a.q = sumSq a.cand.vector ∧
    a.cand.username ≠ lowered ∧ a.q ≠ 0

/-- Inductive step of Cauchy–Schwarz, proved over `ℤ`. -/
theorem cs_step (a b D P Q : Nat) (h : D * D ≤ P * Q) :
    (a * b + D) * (a * b + D) ≤ (a * a + P) * (b * b + Q) := by
  zify at h ⊢
  have hsq : (2 * ((a : ℤ) * b) * D) ^ 2 ≤ ((a : ℤ) * a * Q + P * (b * b)) ^ 2 := by
    nlinarith [h, sq_nonneg ((a : ℤ) * a * Q - P * (b * b)),
      mul_le_mul_of_nonneg_left h (show (0 : ℤ) ≤ 4 * ((a : ℤ) * b) ^ 2 by positivity)]
  have hkey : 2 * ((a : ℤ) * b) * D ≤ (a : ℤ) * a * Q + P * (b * b) := by
    have h1 : (0 : ℤ) ≤ 2 * ((a : ℤ) * b) * D := by positivity
    have h2 : (0 : ℤ) ≤ (a : ℤ) * a * Q + P * (b * b) := by positivity
    exact (pow_le_pow_iff_left₀ h1 h2 (by norm_num)).1 hsq
  nlinarith [h, hkey]

/-- Cauchy–Schwarz for the integer dot product of nonnegative vectors. -/
theorem dotN_sq_le (u v : List Nat) : dotN u v * dotN u v ≤ sumSq u * sumSq v := by
  induction u generalizing v with
  | nil => simp [dotN, sumSq]
  | cons a as ih =>
    cases v with
    | nil => simp [dotN, sumSq]
    | cons b bs =>
      show (a * b + dotN as bs) * (a * b + dotN as bs) ≤
        (a * a + sumSq as) * (b * b + sumSq bs)
      exact cs_step a b (dotN as bs) (sumSq as) (sumSq bs) (ih bs)

/-- `dot(u, u) = ||u||²`. -/
theorem dotN_self (u : List Nat) : dotN u u = sumSq u := by
  induction u with
  | nil => rfl
  | cons a as ih =>
    show a * a + dotN as as = a * a + sumSq as
    rw [ih]

/-- Strict transitivity of the cross-product comparison. -/
theorem cross_trans_lt_lt (da qa dx qx d2 q2 : Nat) (hqa : 0 < qa) (hqx : 0 < qx)
    (h1 : da * da * qx < dx * dx * qa) (h2 : dx * dx * q2 < d2 * d2 * qx) :
    da * da * q2 < d2 * d2 * qa := by
  rcases Nat.eq_zero_or_pos q2 with hq2 | hq2
  · subst hq2
    have hd2 : 0 < d2 * d2 * qx := lt_of_le_of_lt (Nat.zero_le _) h2
    have hp : 0 < d2 * d2 := by
      rcases Nat.eq_zero_or_pos (d2 * d2) with h0 | h0
      · rw [h0] at hd2
        simp at hd2
      · exact h0
    calc da * da * 0 = 0 := by ring
      _ < d2 * d2 * qa := Nat.mul_pos hp hqa
  · have h3 : da * da * qx * q2 < dx * dx * qa * q2 := mul_lt_mul_of_pos_right h1 hq2
    have h4 : dx * dx * q2 * qa < d2 * d2 * qx * qa := mul_lt_mul_of_pos_right h2 hqa
    have h6 : qx * (da * da * q2) < qx * (d2 * d2 * qa) := by
      calc qx * (da * da * q2) = da * da * qx * q2 := by ring
        _ < dx * dx * qa * q2 := h3
        _ = dx * dx * q2 * qa := by ring
        _ < d2 * d2 * qx * qa := h4
        _ = qx * (d2 * d2 * qa) := by ring
    exact lt_of_mul_lt_mul_left h6 (Nat.zero_le qx)
/-- Mixed transitivity: a non-improving candidate stays strictly below any
later strict improvement. -/
theorem cross_trans_le_lt (da qa dx qx d2 q2 : Nat) (hqa : 0 < qa) (hqx : 0 < qx)
    (h1 : dx * dx * qa ≤ da * da * qx) (h2 : da * da * q2 < d2 * d2 * qa) :
    dx * dx * q2 < d2 * d2 * qx := by
  nlinarith [h1, h2, hqa, hqx]

/-- The loop's exact integer comparison is equivalent to a strict comparison
of the real-valued cosine scores (all dot products are nonnegative and both
magnitudes positive). -/
theorem cross_lt_iff_score_lt (uv v w : List Nat) (huv : sumSq uv ≠ 0)
    (hv : sumSq v ≠ 0) (hw : sumSq w ≠ 0) :
    (dotN uv v * dotN uv v * sumSq w < dotN uv w * dotN uv w * sumSq v ↔
      cosineScore uv v < cosineScore uv w) := by
  have hsu : (0 : ℝ) < Real.sqrt (sumSq uv) :=
    Real.sqrt_pos.2 (by exact_mod_cast Nat.pos_of_ne_zero huv)
  have hx : (0 : ℝ) < (sumSq v : ℝ) := by exact_mod_cast Nat.pos_of_ne_zero hv
  have hy : (0 : ℝ) < (sumSq w : ℝ) := by exact_mod_cast Nat.pos_of_ne_zero hw
  have hsx : (0 : ℝ) < Real.sqrt (sumSq v) := Real.sqrt_pos.2 hx
  have hsy : (0 : ℝ) < Real.sqrt (sumSq w) := Real.sqrt_pos.2 hy
  unfold cosineScore
  rw [mul_lt_mul_right (show (0 : ℝ) < 100 by norm_num)]
  rw [div_lt_div_iff (by positivity) (by positivity)]
  rw [show (dotN uv v : ℝ) * (Real.sqrt (sumSq uv) * Real.sqrt (sumSq w)) =
      Real.sqrt (sumSq uv) * ((dotN uv v : ℝ) * Real.sqrt (sumSq w)) by ring]
  rw [show (dotN uv w : ℝ) * (Real.sqrt (sumSq uv) * Real.sqrt (sumSq v)) =
      Real.sqrt (sumSq uv) * ((dotN uv w : ℝ) * Real.sqrt (sumSq v)) by ring]
  rw [mul_lt_mul_left hsu]
  rw [mul_self_lt_mul_self_iff (by positivity : (0 : ℝ) ≤ (dotN uv v : ℝ) * Real.sqrt (sumSq w))
    (by positivity : (0 : ℝ) ≤ (dotN uv w : ℝ) * Real.sqrt (sumSq v))]
  rw [show ((dotN uv v : ℝ) * Real.sqrt (sumSq w)) * ((dotN uv v : ℝ) * Real.sqrt (sumSq w)) =
      ((dotN uv v : ℝ) * (dotN uv v : ℝ)) * (Real.sqrt (sumSq w) * Real.sqrt (sumSq w)) by ring]
  rw [show ((dotN uv w : ℝ) * Real.sqrt (sumSq v)) * ((dotN uv w : ℝ) * Real.sqrt (sumSq v)) =
      ((dotN uv w : ℝ) * (dotN uv w : ℝ)) * (Real.sqrt (sumSq v) * Real.sqrt (sumSq v)) by ring]
  rw [Real.mul_self_sqrt (by positivity), Real.mul_self_sqrt (by positivity)]
  constructor
  · intro h
    exact_mod_cast h
  · intro h
    exact_mod_cast h

/-- Invariant of the `get_rival` selection loop: either no eligible candidate
improves on the accumulator (returned unchanged), or the result is a
well-formed best accumulator that no eligible candidate beats, strictly
improves on the initial accumulator, and sits at a position in the pool all
of whose earlier eligible candidates are strictly worse. -/
theorem rivalFold_spec (uv : List Nat) (lowered : String) (pool : List RivalCand) :
    ∀ (acc : Option RivalAcc), (∀ a, acc = some a → accGood uv lowered a) →
    (pool.foldl (rivalStep uv lowered) acc = acc ∧
      ∀ c ∈ pool, eligC lowered c → ∃ a, acc = some a ∧
        ¬ (a.dp * a.dp * sumSq c.vector < dotN uv c.vector * dotN uv c.vector * a.q)) ∨
    (∃ a2, pool.foldl (rivalStep uv lowered) acc = some a2 ∧ accGood uv lowered a2 ∧
      (∀ c ∈ pool, eligC lowered c →
        ¬ (a2.dp * a2.dp * sumSq c.vector < dotN uv c.vector * dotN uv c.vector * a2.q)) ∧
      (∀ a, acc = some a → a.dp * a.dp * a2.q < a2.dp * a2.dp * a.q) ∧
      ∃ l1 l2, pool = l1 ++ a2.cand :: l2 ∧
        (∀ c ∈ l1, eligC lowered c →
          dotN uv c.vector * dotN uv c.vector * a2.q < a2.dp * a2.dp * sumSq c.vector)) := by
  induction pool with
  | nil =>
    intro acc hacc
    left
    exact ⟨rfl, by simp⟩
  | cons c rest ih =>
    intro acc hacc
    have hfold : (c :: rest).foldl (rivalStep uv lowered) acc =
        rest.foldl (rivalStep uv lowered) (rivalStep uv lowered acc c) :=
      List.foldl_cons _ _
    by_cases hcu : c.username = lowered
    · have hstep : rivalStep uv lowered acc c = acc := by
        simp [rivalStep, hcu]
      rw [hfold, hstep]
      rcases ih acc hacc with ⟨heq, hall⟩ | ⟨a2, heq, hgood, hall, himp, l1, l2, hsplit, hfirst⟩
      · left
        refine ⟨heq, ?_⟩
        intro c2 hc2 helig
        rcases List.mem_cons.1 hc2 with rfl | hc3
        · exact absurd hcu helig.1
        · exact hall c2 hc3 helig
      · right
        refine ⟨a2, heq, hgood, ?_, himp, c :: l1, l2, by rw [hsplit, List.cons_append], ?_⟩
        · intro c2 hc2 helig
          rcases List.mem_cons.1 hc2 with rfl | hc3
          · exact absurd hcu helig.1
          · exact hall c2 hc3 helig
        · intro c2 hc2 helig
          rcases List.mem_cons.1 hc2 with rfl | hc3
          · exact absurd hcu helig.1
          · exact hfirst c2 hc3 helig
    · by_cases hq : sumSq c.vector = 0
      · have hstep : rivalStep uv lowered acc c = acc := by
          simp [rivalStep, hcu, hq]
        rw [hfold, hstep]
        rcases ih acc hacc with ⟨heq, hall⟩ | ⟨a2, heq, hgood, hall, himp, l1, l2, hsplit, hfirst⟩
        · left
          refine ⟨heq, ?_⟩
          intro c2 hc2 helig
          rcases List.mem_cons.1 hc2 with rfl | hc3
          · exact absurd hq helig.2
          · exact hall c2 hc3 helig
        · right
          refine ⟨a2, heq, hgood, ?_, himp, c :: l1, l2, by rw [hsplit, List.cons_append], ?_⟩
          · intro c2 hc2 helig
            rcases List.mem_cons.1 hc2 with rfl | hc3
            · exact absurd hq helig.2
            · exact hall c2 hc3 helig
          · intro c2 hc2 helig
            rcases List.mem_cons.1 hc2 with rfl | hc3
            · exact absurd hq helig.2
            · exact hfirst c2 hc3 helig
      · have haxgood : accGood uv lowered ⟨c, dotN uv c.vector, sumSq c.vector⟩ :=
          ⟨rfl, rfl, hcu, hq⟩
        rcases hac : acc with _ | a
        · have hstep : rivalStep uv lowered none c =
              some ⟨c, dotN uv c.vector, sumSq c.vector⟩ := by
            simp [rivalStep, hcu, hq]
          rw [hac] at hfold; rw [hfold, hstep]
          rcases ih (some ⟨c, dotN uv c.vector, sumSq c.vector⟩)
              (fun a ha => by cases ha; exact haxgood) with
            ⟨heq, hall⟩ | ⟨a2, heq, hgood, hall, himp, l1, l2, hsplit, hfirst⟩
          · right
            refine ⟨⟨c, dotN uv c.vector, sumSq c.vector⟩, heq, haxgood, ?_, by simp, [],
              rest, rfl, by simp⟩
            intro c2 hc2 helig
            rcases List.mem_cons.1 hc2 with rfl | hc3
            · exact lt_irrefl _
            · rcases hall c2 hc3 helig with ⟨a, ha, hni⟩
              cases ha
              exact hni
          · right
            have himpax := himp ⟨c, dotN uv c.vector, sumSq c.vector⟩ rfl
            refine ⟨a2, heq, hgood, ?_, by simp, c :: l1, l2, by rw [hsplit, List.cons_append], ?_⟩
            · intro c2 hc2 helig
              rcases List.mem_cons.1 hc2 with rfl | hc3
              · exact Nat.lt_asymm himpax
              · exact hall c2 hc3 helig
            · intro c2 hc2 helig
              rcases List.mem_cons.1 hc2 with rfl | hc3
              · exact himpax
              · exact hfirst c2 hc3 helig
        · have hag : accGood uv lowered a := hacc a hac
          by_cases himp0 : a.dp * a.dp * sumSq c.vector <
              dotN uv c.vector * dotN uv c.vector * a.q
          · have hstep : rivalStep uv lowered (some a) c =
                some ⟨c, dotN uv c.vector, sumSq c.vector⟩ := by
              simp [rivalStep, hcu, hq, himp0]
            rw [hac] at hfold; rw [hfold, hstep]
            rcases ih (some ⟨c, dotN uv c.vector, sumSq c.vector⟩)
                (fun a2 ha2 => by cases ha2; exact haxgood) with
              ⟨heq, hall⟩ | ⟨a2, heq, hgood, hall, himp, l1, l2, hsplit, hfirst⟩
            · right
              refine ⟨⟨c, dotN uv c.vector, sumSq c.vector⟩, heq, haxgood, ?_, ?_, [],
                rest, rfl, by simp⟩
              · intro c2 hc2 helig
                rcases List.mem_cons.1 hc2 with rfl | hc3
                · exact lt_irrefl _
                · rcases hall c2 hc3 helig with ⟨a3, ha3, hni⟩
                  cases ha3
                  exact hni
              · intro a3 ha3
                cases ha3
                exact himp0
            · right
              have himpax := himp ⟨c, dotN uv c.vector, sumSq c.vector⟩ rfl
              refine ⟨a2, heq, hgood, ?_, ?_, c :: l1, l2, by rw [hsplit, List.cons_append], ?_⟩
              · intro c2 hc2 helig
                rcases List.mem_cons.1 hc2 with rfl | hc3
                · exact Nat.lt_asymm himpax
                · exact hall c2 hc3 helig
              · intro a3 ha3
                cases ha3
                exact cross_trans_lt_lt a.dp a.q (dotN uv c.vector) (sumSq c.vector)
                  a2.dp a2.q (Nat.pos_of_ne_zero hag.2.2.2) (Nat.pos_of_ne_zero hq)
                  himp0 himpax
              · intro c2 hc2 helig
                rcases List.mem_cons.1 hc2 with rfl | hc3
                · exact himpax
                · exact hfirst c2 hc3 helig
          · have hstep : rivalStep uv lowered (some a) c = some a := by
              simp [rivalStep, hcu, hq, himp0]
            rw [hac] at hfold; rw [hfold, hstep]
            rcases ih (some a) (fun a3 ha3 => by cases ha3; exact hag) with
              ⟨heq, hall⟩ | ⟨a2, heq, hgood, hall, himp, l1, l2, hsplit, hfirst⟩
            · left
              refine ⟨heq, ?_⟩
              intro c2 hc2 helig
              rcases List.mem_cons.1 hc2 with rfl | hc3
              · exact ⟨a, rfl, himp0⟩
              · rcases hall c2 hc3 helig with ⟨a3, ha3, hni⟩
                cases ha3
                exact ⟨a, rfl, hni⟩
            · right
              have himpa := himp a rfl
              refine ⟨a2, heq, hgood, ?_, ?_, c :: l1, l2, by rw [hsplit, List.cons_append], ?_⟩
              · intro c2 hc2 helig
                rcases List.mem_cons.1 hc2 with rfl | hc3
                · exact Nat.lt_asymm (cross_trans_le_lt a.dp a.q (dotN uv c2.vector)
                    (sumSq c2.vector) a2.dp a2.q (Nat.pos_of_ne_zero hag.2.2.2)
                    (Nat.pos_of_ne_zero hq) (Nat.not_lt.1 himp0) himpa)
                · exact hall c2 hc3 helig
              · intro a3 ha3
                cases ha3
                exact himpa
              · intro c2 hc2 helig
                rcases List.mem_cons.1 hc2 with rfl | hc3
                · exact cross_trans_le_lt a.dp a.q (dotN uv c2.vector) (sumSq c2.vector)
                    a2.dp a2.q (Nat.pos_of_ne_zero hag.2.2.2) (Nat.pos_of_ne_zero hq)
                    (Nat.not_lt.1 himp0) himpa
                · exact hfirst c2 hc3 helig

/-- `get_rival` unfolded (the `let` bindings made explicit). -/
theorem get_rival_eq (msgs : List Msg) (u : String) (hourly_pattern : List HourlyActivity)
    (period : String) (now : Int) :
    get_rival msgs u hourly_pattern period now =
      (if rivalPool (applyDateFilter msgs (get_date_filter period now)) = [] then none
      else if sumSq (hourly_pattern.map (·.count)) = 0 then none
      else ((rivalPool (applyDateFilter msgs (get_date_filter period now))).foldl
        (rivalStep (hourly_pattern.map (·.count)) (pyLower u)) none).map (·.cand)) := rfl

set_option maxHeartbeats 1600000 in
/-- C7: the rival finder returns `none` when the subject's histogram is
all-zero or when the pool is empty after exclusion (every candidate is the
subject or has a zero vector); any returned rival is an eligible pool
candidate whose real cosine score `dot/(||u||·||v||)·100` is maximal over
all eligible candidates, with every earlier (pool-rank-order) eligible
candidate strictly worse — first-encountered tie-breaking; the score of any
eligible candidate lies in `[0, 100]`, an identical nonzero histogram
scoring exactly 100; and a rival exists whenever the subject's histogram is
nonzero and some eligible candidate exists. -/
theorem C7_rival_spec (msgs : List Msg) (u : String) (hourly_pattern : List HourlyActivity)
    (period : String) (now : Int) :
    (sumSq (hourly_pattern.map (·.count)) = 0 →
      get_rival msgs u hourly_pattern period now = none) ∧
    ((∀ cand ∈ rivalPool (applyDateFilter msgs (get_date_filter period now)),
        cand.username = pyLower u ∨ sumSq cand.vector = 0) →
      get_rival msgs u hourly_pattern period now = none) ∧
    (∀ r, get_rival msgs u hourly_pattern period now = some r →
      r ∈ rivalPool (applyDateFilter msgs (get_date_filter period now)) ∧
      r.username ≠ pyLower u ∧ sumSq r.vector ≠ 0 ∧
      (∀ c ∈ rivalPool (applyDateFilter msgs (get_date_filter period now)),
        c.username ≠ pyLower u → sumSq c.vector ≠ 0 →
        cosineScore (hourly_pattern.map (·.count)) c.vector ≤
          cosineScore (hourly_pattern.map (·.count)) r.vector) ∧
      (∃ l1 l2, rivalPool (applyDateFilter msgs (get_date_filter period now)) =
          l1 ++ r :: l2 ∧
        ∀ c ∈ l1, c.username ≠ pyLower u → sumSq c.vector ≠ 0 →
          cosineScore (hourly_pattern.map (·.count)) c.vector <
            cosineScore (hourly_pattern.map (·.count)) r.vector)) ∧
    (∀ v : List Nat, sumSq (hourly_pattern.map (·.count)) ≠ 0 → sumSq v ≠ 0 →
      0 ≤ cosineScore (hourly_pattern.map (·.count)) v ∧
      cosineScore (hourly_pattern.map (·.count)) v ≤ 100 ∧
      (v = hourly_pattern.map (·.count) →
        cosineScore (hourly_pattern.map (·.count)) v = 100)) ∧
    (sumSq (hourly_pattern.map (·.count)) ≠ 0 →
      (∃ c ∈ rivalPool (applyDateFilter msgs (get_date_filter period now)),
        c.username ≠ pyLower u ∧ sumSq c.vector ≠ 0) →
      ∃ r, get_rival msgs u hourly_pattern period now = some r) := by
  refine ⟨?_, ?_, ?_, ?_, ?_⟩
  · intro h
    rw [get_rival_eq]
    by_cases hp : rivalPool (applyDateFilter msgs (get_date_filter period now)) = []
    · rw [if_pos hp]
    · rw [if_neg hp, if_pos h]
  · intro hall
    rw [get_rival_eq]
    by_cases hp : rivalPool (applyDateFilter msgs (get_date_filter period now)) = []
    · rw [if_pos hp]
    · rw [if_neg hp]
      by_cases huv : sumSq (hourly_pattern.map (·.count)) = 0
      · rw [if_pos huv]
      · rw [if_neg huv]
        rcases rivalFold_spec (hourly_pattern.map (·.count)) (pyLower u)
            (rivalPool (applyDateFilter msgs (get_date_filter period now))) none
            (by simp) with ⟨heq, -⟩ | ⟨a2, heq, hgood, -, -, l1, l2, hsplit, -⟩
        · rw [heq]
          rfl
        · exfalso
          have hmem : a2.cand ∈ rivalPool (applyDateFilter msgs (get_date_filter period now)) := by
            rw [hsplit]
            exact List.mem_append_right _ (List.mem_cons_self _ _)
          rcases hall a2.cand hmem with h1 | h2
          · exact hgood.2.2.1 h1
          · exact hgood.2.2.2 (by rw [hgood.2.1]; exact h2)
  · intro r hr
    rw [get_rival_eq] at hr
    by_cases hp : rivalPool (applyDateFilter msgs (get_date_filter period now)) = []
    · rw [if_pos hp] at hr
      cases hr
    · rw [if_neg hp] at hr
      by_cases huv : sumSq (hourly_pattern.map (·.count)) = 0
      · rw [if_pos huv] at hr
        cases hr
      · rw [if_neg huv] at hr
        rcases Option.map_eq_some'.1 hr with ⟨a2x, hfold, hcand⟩
        rcases rivalFold_spec (hourly_pattern.map (·.count)) (pyLower u)
            (rivalPool (applyDateFilter msgs (get_date_filter period now))) none
            (by simp) with ⟨heq, -⟩ | ⟨a2, heq, hgood, hall, -, l1, l2, hsplit, hfirst⟩
        · rw [heq] at hfold
          cases hfold
        · rw [heq] at hfold
          have ha2x : a2 = a2x := Option.some.inj hfold
          subst ha2x
          subst hcand
          have hsq2 : sumSq a2.cand.vector ≠ 0 := by
            rw [← hgood.2.1]
            exact hgood.2.2.2
          have hmem : a2.cand ∈ rivalPool (applyDateFilter msgs (get_date_filter period now)) := by
            rw [hsplit]
            exact List.mem_append_right _ (List.mem_cons_self _ _)
          refine ⟨hmem, hgood.2.2.1, hsq2, ?_, l1, l2, hsplit, ?_⟩
          · intro c hc hcu2 hcq
            have hni := hall c hc ⟨hcu2, hcq⟩
            rw [hgood.1, hgood.2.1] at hni
            have h2 := cross_lt_iff_score_lt (hourly_pattern.map (·.count))
              a2.cand.vector c.vector huv hsq2 hcq
            exact not_lt.1 (fun hs => hni (h2.2 hs))
          · intro c hc hcu2 hcq
            have hlt := hfirst c hc ⟨hcu2, hcq⟩
            rw [hgood.1, hgood.2.1] at hlt
            exact (cross_lt_iff_score_lt (hourly_pattern.map (·.count))
              c.vector a2.cand.vector huv hcq hsq2).1 hlt
  · intro v huv hv
    have hsu : (0 : ℝ) < Real.sqrt (sumSq (hourly_pattern.map (·.count))) :=
      Real.sqrt_pos.2 (by exact_mod_cast Nat.pos_of_ne_zero huv)
    have hsv : (0 : ℝ) < Real.sqrt (sumSq v) :=
      Real.sqrt_pos.2 (by exact_mod_cast Nat.pos_of_ne_zero hv)
    refine ⟨?_, ?_, ?_⟩
    · unfold cosineScore
      positivity
    · unfold cosineScore
      have h1 : (dotN (hourly_pattern.map (·.count)) v : ℝ) /
          (Real.sqrt (sumSq (hourly_pattern.map (·.count))) * Real.sqrt (sumSq v)) ≤ 1 := by
        rw [div_le_one (by positivity)]
        rw [← Real.sqrt_mul (by positivity)]
        rw [Real.le_sqrt (by positivity) (by positivity)]
        rw [sq]
        exact_mod_cast dotN_sq_le (hourly_pattern.map (·.count)) v
      calc (dotN (hourly_pattern.map (·.count)) v : ℝ) /
            (Real.sqrt (sumSq (hourly_pattern.map (·.count))) * Real.sqrt (sumSq v)) * 100 ≤
          1 * 100 := mul_le_mul_of_nonneg_right h1 (by norm_num)
        _ = 100 := by norm_num
    · intro hveq
      unfold cosineScore
      rw [hveq, dotN_self, Real.mul_self_sqrt (by positivity),
        div_self (by exact_mod_cast huv : (sumSq (hourly_pattern.map (·.count)) : ℝ) ≠ 0)]
      norm_num
  · rintro huv ⟨c, hc, hcu2, hcq⟩
    have hp : rivalPool (applyDateFilter msgs (get_date_filter period now)) ≠ [] :=
      List.ne_nil_of_mem hc
    rw [get_rival_eq, if_neg hp, if_neg huv]
    rcases rivalFold_spec (hourly_pattern.map (·.count)) (pyLower u)
        (rivalPool (applyDateFilter msgs (get_date_filter period now))) none
        (by simp) with ⟨-, hall⟩ | ⟨a2, heq, -⟩
    · rcases hall c hc ⟨hcu2, hcq⟩ with ⟨a, ha, -⟩
      cases ha
    · exact ⟨a2.cand, by rw [heq]; rfl⟩

/-- Fixture for the C7 witness: `a` chats twice at hour 0, `b` once at
hour 0 — `b` is `a`'s rival with perfectly aligned (identical-direction)
hour vectors. -/
def exC7 : List Msg :=
  [⟨"a", "A", "x", 1, 0⟩, ⟨"a", "A", "y", 2, 0⟩, ⟨"b", "B", "z", 3, 0⟩]

/-- The subject's hourly pattern at the C7 witness fixture. -/
def patC7 : List HourlyActivity :=
  (List.range 24).map (fun h => ⟨h, if h = 0 then 2 else 0⟩)

/-- C7 witness: `C7_rival_spec` at `exC7`: the computed rival is the eligible
candidate `b`. -/
theorem C7_rival_spec_witness :
    get_rival exC7 "a" patC7 "all" 0 =
      some ⟨"b", "B", (List.range 24).map (fun h => if h = 0 then 1 else 0)⟩ ∧
    (⟨"b", "B", (List.range 24).map (fun h => if h = 0 then 1 else 0)⟩ : RivalCand) ∈
      rivalPool (applyDateFilter exC7 (get_date_filter "all" 0)) ∧
    (⟨"b", "B", (List.range 24).map (fun h => if h = 0 then 1 else 0)⟩ : RivalCand).username ≠
      pyLower "a" ∧
    sumSq (⟨"b", "B", (List.range 24).map (fun h => if h = 0 then 1 else 0)⟩ : RivalCand).vector ≠ 0 :=
  by
  have h := (C7_rival_spec exC7 "a" patC7 "all" 0).2.2.1
    ⟨"b", "B", (List.range 24).map (fun h => if h = 0 then 1 else 0)⟩ (by decide)
  exact ⟨by decide, h.1, h.2.1, h.2.2.1⟩
